import Mathlib

/-!
Verification of the durability and data-exchange core of a multiple-choice
exam web application: the exam text codec (`parseExamText` / `serializeExam`
from `src/utils/cloud-exams.ts`), the tiered persistent store
(`src/utils/persistent-store.ts`), the cloud sync reconciler
(`src/utils/cloud-exams.ts` together with `src/lib/firebase.ts`), the
session ledger (`src/utils/activity-log.ts`) and the account module.

JavaScript strings are modelled as `List Char`; the regexes of the codec are
embedded as explicit matching functions whose greedy/backtracking behaviour
is argued case by case in the comments; module-level mutable state is
modelled as explicit state records, and the remote document store as an
oracle input to each operation.
-/

set_option maxHeartbeats 1000000
set_option maxRecDepth 8192

/-- JS whitespace: the character class matched by the regex `\s` and stripped
by `String.prototype.trim` (tab, line terminators, space, NBSP, the Unicode
space separators, BOM). -/
def isJsWs (c : Char) : Bool :=
  c.toNat = 9 || c.toNat = 10 || c.toNat = 11 || c.toNat = 12 || c.toNat = 13 ||
  c.toNat = 32 || c.toNat = 160 || c.toNat = 5760 ||
  (8192 ≤ c.toNat && c.toNat ≤ 8202) ||
  c.toNat = 8232 || c.toNat = 8233 || c.toNat = 8239 || c.toNat = 8287 ||
  c.toNat = 12288 || c.toNat = 65279

/-- Characters matched by `.` in a JS regex without the `s` flag: everything
except the four line terminators LF, CR, LS, PS. -/
def isDotChar (c : Char) : Bool :=
  !(c.toNat = 10 || c.toNat = 13 || c.toNat = 8232 || c.toNat = 8233)

/-- The class `\d`: ASCII digits. -/
def jsDigit (c : Char) : Bool := 48 ≤ c.toNat && c.toNat ≤ 57

/-- ASCII letter, i.e. what `[a-z]` matches under the `i` flag. -/
def isAsciiLetter (c : Char) : Bool :=
  (97 ≤ c.toNat && c.toNat ≤ 122) || (65 ≤ c.toNat && c.toNat ≤ 90)

/-- Lowercase ASCII letter. -/
def isLowAZ (c : Char) : Bool := 97 ≤ c.toNat && c.toNat ≤ 122

/-- ASCII lowercasing: the effect of `String.prototype.toLowerCase` on the
ASCII characters this code ever applies it to (regex captures constrained to
ASCII letters, and login strings, which the account module treats as ASCII). -/
def lowerChar (c : Char) : Char :=
  if 65 ≤ c.toNat && c.toNat ≤ 90 then Char.ofNat (c.toNat + 32) else c

/-- `String.prototype.trim`. -/
def jsTrim (s : List Char) : List Char :=
  ((s.dropWhile isJsWs).reverse.dropWhile isJsWs).reverse

/-- `raw.replace(/\r\n/g, '\n')`: a single left-to-right scan replacing each
non-overlapping CRLF pair with LF. -/
def replaceCRLF : List Char → List Char
  | [] => []
  | [c] => [c]
  | c :: d :: rest =>
    if c = '\r' ∧ d = '\n' then '\n' :: replaceCRLF rest
    else c :: replaceCRLF (d :: rest)

/-- `s.split('\n')` (keeps empty segments, returns `[""]` on the empty
string). -/
def splitNl : List Char → List (List Char)
  | [] => [[]]
  | c :: rest =>
    if c = '\n' then [] :: splitNl rest
    else
      match splitNl rest with
      | l :: ls => (c :: l) :: ls
      | [] => [[c]]

/-- `lines.join('\n')`. -/
def joinNl : List (List Char) → List Char
  | [] => []
  | [l] => l
  | l :: l2 :: ls => l ++ '\n' :: joinNl (l2 :: ls)

def digitChar (d : Nat) : Char := Char.ofNat (48 + d)

/-- Decimal digits of `n`, fuelled so that the definition is structural;
`fuel ≥ 1 + n` always suffices. -/
def natToCharsGo : Nat → Nat → List Char
  | 0, _ => []
  | fuel + 1, n =>
    if n < 10 then [digitChar n]
    else natToCharsGo fuel (n / 10) ++ [digitChar (n % 10)]

/-- The decimal string a JS template literal produces for a natural number. -/
def natToChars (n : Nat) : List Char := natToCharsGo (n + 1) n

/-- `Array.prototype.findIndex`, with `none` for the JS result `-1`. -/
def findIndexJs {α : Type} (p : α → Bool) : List α → Option Nat
  | [] => none
  | a :: l => if p a then some 0 else (findIndexJs p l).map (· + 1)

/-- Case-insensitive literal prefix match (the pattern is given lowercase);
returns the rest of the input after the prefix. -/
def stripCI : List Char → List Char → Option (List Char)
  | [], s => some s
  | _ :: _, [] => none
  | p :: ps, c :: cs => if lowerChar c = p then stripCI ps cs else none

/-- The regex tail `\s*(.+)$` with JS greedy/backtracking semantics: `\s*`
consumes as much whitespace as possible, backtracking one character at a time
until the rest is a non-empty run of `.`-matchable characters. -/
def matchTailCapture : List Char → Option (List Char)
  | [] => none
  | c :: cs =>
    if isJsWs c then
      match matchTailCapture cs with
      | some cap => some cap
      | none => if isDotChar c && cs.all isDotChar then some (c :: cs) else none
    else
      if isDotChar c && cs.all isDotChar then some (c :: cs) else none

/-- The regex tail `\s*[:\-]\s*(.+)$`. The leading `\s*` is forced maximal:
any backtracked position would put a whitespace character in front of
`[:\-]`, which cannot match, so `dropWhile` is faithful. -/
def matchSepCapture (s : List Char) : Option (List Char) :=
  match s.dropWhile isJsWs with
  | [] => none
  | c :: rest => if c = ':' ∨ c = '-' then matchTailCapture rest else none

/-- The optional group `(?:\s+\d+)` of `QUESTION_REGEX`. Both `\s+` and `\d+`
are forced maximal: a shorter `\s+` leaves whitespace in front of `\d`, and a
shorter `\d+` leaves a digit in front of `\s*[:\-]`; neither can match. -/
def matchNumGroup (s : List Char) : Option (List Char) :=
  match s with
  | [] => none
  | c :: _ =>
    if isJsWs c then
      let r := s.dropWhile isJsWs
      match r with
      | [] => none
      | d :: _ => if jsDigit d then some (r.dropWhile jsDigit) else none
    else none

/-- `TITLE_REGEX = /^title\s*[:\-]\s*(.+)$/i`, returning capture 1. -/
def titleCapture (line : List Char) : Option (List Char) :=
  match stripCI ("title".data) line with
  | none => none
  | some r => matchSepCapture r

/-- `QUESTION_REGEX = /^question(?:\s+\d+)?\s*[:\-]\s*(.+)$/i`.  When the
optional number group matches but the continuation fails, the regex engine
backtracks to skipping the group; the only way the skipped-group alternative
can then succeed is if the group could not match at all (the group ends in a
digit, which `\s*[:\-]` rejects), so trying the group first and falling back
on failure is faithful. -/
def questionCapture (line : List Char) : Option (List Char) :=
  match stripCI ("question".data) line with
  | none => none
  | some r =>
    match matchNumGroup r with
    | some r2 =>
      match matchSepCapture r2 with
      | some cap => some cap
      | none => matchSepCapture r
    | none => matchSepCapture r

/-- `OPTION_REGEX = /^([a-z])[).:\-]\s*(.+)$/i`, returning captures 1 and 2. -/
def optionCapture (line : List Char) : Option (Char × List Char) :=
  match line with
  | c :: d :: rest =>
    if isAsciiLetter c && (d = ')' || d = '.' || d = ':' || d = '-') then
      match matchTailCapture rest with
      | some cap => some (c, cap)
      | none => none
    else none
  | _ => none

/-- `ANSWER_REGEX = /^answer\s*[:\-]\s*([a-z])/i` (unanchored tail), returning
capture 1.  The `\s*` before `[a-z]` is forced maximal since whitespace is
never an ASCII letter. -/
def answerLetterCapture (line : List Char) : Option Char :=
  match stripCI ("answer".data) line with
  | none => none
  | some r =>
    match r.dropWhile isJsWs with
    | [] => none
    | c :: rest =>
      if c = ':' ∨ c = '-' then
        match rest.dropWhile isJsWs with
        | [] => none
        | a :: _ => if isAsciiLetter a then some a else none
      else none

/-- `ANSWER_TEXT_REGEX = /^answer\s*[:\-]\s*(.+)$/i`, returning capture 1. -/
def answerTextCapture (line : List Char) : Option (List Char) :=
  match stripCI ("answer".data) line with
  | none => none
  | some r => matchSepCapture r

/-- Kind of question accepted by `TYPE_REGEX`. -/
inductive QuestionKind where
  | choice
  | fill
deriving DecidableEq

/-- `TYPE_REGEX = /^type\s*[:\-]\s*(choice|fill)/i` composed with the
`toLowerCase()` the source applies to capture 1.  The `\s*` before the
alternation is forced maximal since the alternatives start with letters. -/
def typeCapture (line : List Char) : Option QuestionKind :=
  match stripCI ("type".data) line with
  | none => none
  | some r =>
    match r.dropWhile isJsWs with
    | [] => none
    | c :: rest =>
      if c = ':' ∨ c = '-' then
        let body := rest.dropWhile isJsWs
        match stripCI ("choice".data) body with
        | some _ => some QuestionKind.choice
        | none =>
          match stripCI ("fill".data) body with
          | some _ => some QuestionKind.fill
          | none => none
      else none

/-- `ChoiceOption` from `types/question.ts`. -/
structure ChoiceOption where
  label : List Char
  text : List Char
deriving DecidableEq

/-- Modelled from the spec: the `Question` tagged union of §3, *Choice*
`{entry, options, correctIndex}* | *Fill* `{entry, correctAnswer}`.  The
`types/question.ts` present under `src/` predates the fill variant (it has
only the choice shape and no `kind` discriminant), while the parser
constructs both `{entry, options, correctIndex}` and
`{kind: 'fill', entry, correctAnswer}` literals and the serializer branches
on the missing helper `isFillQuestion`; the union below follows the spec's
tagged-union description and those literals. -/
inductive Question where
  | choice (entry : List Char) (options : List ChoiceOption) (correctIndex : Nat)
  | fill (entry : List Char) (correctAnswer : List Char)
deriving DecidableEq

def isChoiceQ : Question → Bool
  | Question.choice _ _ _ => true
  | Question.fill _ _ => false

/-- `Exam` (with the optional `ownerId` the reconciler reads and writes; the
`types/question.ts` under `src/` omits it, the spec's data model has it). -/
structure Exam where
  id : List Char
  title : List Char
  questions : List Question
  ownerId : Option (List Char)
deriving DecidableEq

/-- `ParseResult` from `cloud-exams.ts`: `{success: true, data}` or
`{success: false, message}`. -/
inductive ParseResult where
  | ok (title : List Char) (questions : List Question)
  | err (message : List Char)
deriving DecidableEq

def msgEmpty : List Char := "The uploaded file is empty.".data
def msgMissingTitle : List Char := "File content is missing a Title line.".data
def msgStartTitle : List Char := "Start your file with \"Title: <Name of exam>\".".data
def msgExpectedQuestion (k : Nat) : List Char :=
  "Expected a \"Question:\" line near line ".data ++ natToChars k ++ ".".data
def msgMissingText (k : Nat) : List Char :=
  "Missing text for the question near line ".data ++ natToChars k ++ ".".data
def msgMissingAnswerFill (entry : List Char) : List Char :=
  "Missing \"Answer:\" line for the fill-in question that begins with \"".data ++
    entry ++ "\".".data
def msgFillAnswer (k : Nat) : List Char :=
  "Fill-in answers should look like \"Answer: your text\" near line ".data ++
    natToChars k ++ ".".data
def msgOptionLine (k : Nat) : List Char :=
  "Option lines should start with \"a. text\". Issue near line ".data ++
    natToChars k ++ ".".data
def msgTwoOptions (k : Nat) : List Char :=
  "Each question needs at least two options (question near line ".data ++
    natToChars k ++ ").".data
def msgMissingAnswerChoice (entry : List Char) : List Char :=
  "Missing \"Answer:\" line for the question that begins with \"".data ++
    entry ++ "\".".data
def msgAnswerMalformed (k : Nat) : List Char :=
  "Answer line malformed near line ".data ++ natToChars k ++ ". Use \"Answer: a\".".data
def msgLetterNoMatch (letter : Char) : List Char :=
  "The answer letter \"".data ++ [letter] ++
    "\" must match one of the listed options.".data
def msgCap : List Char := "Please limit exams to 1000 questions or fewer.".data
def msgNoQuestions : List Char :=
  "No questions were detected. Please follow the provided template.".data

/-- The `skipBlank` loop of `parseExamText`: advance `index` past lines whose
trim is empty, returning the remaining lines and the new index. -/
def skipBlank : List (List Char) → Nat → List (List Char) × Nat
  | [], idx => ([], idx)
  | l :: ls, idx =>
    if (jsTrim l).isEmpty then skipBlank ls (idx + 1) else (l :: ls, idx)

/-- The option-collecting `while` loop of the choice branch: skip blank
lines, stop at a line passing `ANSWER_REGEX.test`, otherwise require an
option line.  Returns the collected options, the unconsumed lines (starting
at the answer line, or empty), and the index reached. -/
def parseOptions (lines : List (List Char)) (idx : Nat) (acc : List ChoiceOption) :
    Sum (List Char) (List ChoiceOption × List (List Char) × Nat) :=
  match lines with
  | [] => Sum.inr (acc, [], idx)
  | l :: ls =>
    let line := jsTrim l
    if line.isEmpty then parseOptions ls (idx + 1) acc
    else if (answerLetterCapture line).isSome then Sum.inr (acc, l :: ls, idx)
    else
      match optionCapture line with
      | none => Sum.inl (msgOptionLine (idx + 1))
      | some (c, cap) =>
        parseOptions ls (idx + 1) (acc ++ [⟨[lowerChar c], jsTrim cap⟩])

/-- Result of parsing one question block: the question, the unconsumed lines
and the index reached. -/
structure BlockOk where
  q : Question
  rest : List (List Char)
  idx : Nat
deriving DecidableEq

/-- The choice branch of the question loop, entered after the (optional)
type line: options, the two-option minimum, the answer-letter line, and the
`findIndex` over the collected labels. -/
def parseChoiceTail (entry : List Char) (lines : List (List Char)) (idx : Nat) :
    Sum (List Char) BlockOk :=
  match parseOptions lines idx [] with
  | Sum.inl m => Sum.inl m
  | Sum.inr (opts, rest, i) =>
    if opts.length < 2 then Sum.inl (msgTwoOptions (i + 1))
    else
      match rest with
      | [] => Sum.inl (msgMissingAnswerChoice entry)
      | l :: ls =>
        match answerLetterCapture (jsTrim l) with
        | none => Sum.inl (msgAnswerMalformed (i + 1))
        | some a =>
          let letter := lowerChar a
          match findIndexJs (fun o => o.label == [letter]) opts with
          | none => Sum.inl (msgLetterNoMatch letter)
          | some ci => Sum.inr ⟨Question.choice entry opts ci, ls, i + 1⟩

/-- The fill branch: skip inner blank lines, then require an
`ANSWER_TEXT_REGEX` line with a non-empty trimmed capture. -/
def parseFillTail (entry : List Char) (lines : List (List Char)) (idx : Nat) :
    Sum (List Char) BlockOk :=
  match skipBlank lines idx with
  | ([], _) => Sum.inl (msgMissingAnswerFill entry)
  | (l :: ls, i) =>
    match answerTextCapture (jsTrim l) with
    | none => Sum.inl (msgFillAnswer (i + 1))
    | some cap =>
      if (jsTrim cap).isEmpty then Sum.inl (msgFillAnswer (i + 1))
      else Sum.inr ⟨Question.fill entry (jsTrim cap), ls, i + 1⟩

/-- One question block, starting at the non-blank line `l` (index `idx`),
with `ls` the lines after it: the question line, the optional type line
(peeked without consuming via `lines[index]?.trim()`), then the fill or
choice body. -/
def parseBlock (l : List Char) (ls : List (List Char)) (idx : Nat) :
    Sum (List Char) BlockOk :=
  match questionCapture (jsTrim l) with
  | none => Sum.inl (msgExpectedQuestion (idx + 1))
  | some cap =>
    let entry := jsTrim cap
    if entry.isEmpty then Sum.inl (msgMissingText (idx + 1))
    else
      match ls with
      | [] => parseChoiceTail entry [] (idx + 1)
      | l2 :: ls2 =>
        if (jsTrim l2).isEmpty then parseChoiceTail entry (l2 :: ls2) (idx + 1)
        else
          match typeCapture (jsTrim l2) with
          | some QuestionKind.fill => parseFillTail entry ls2 (idx + 2)
          | some QuestionKind.choice => parseChoiceTail entry ls2 (idx + 2)
          | none => parseChoiceTail entry (l2 :: ls2) (idx + 1)

theorem skipBlank_fst_le (L : List (List Char)) (i : Nat) :
    ((skipBlank L i).1).length ≤ L.length := by
  induction L generalizing i with
  | nil => simp [skipBlank]
  | cons l ls ih =>
    simp only [skipBlank]
    split
    · exact Nat.le_trans (ih (i + 1)) (Nat.le_succ _)
    · exact Nat.le_refl _

theorem parseOptions_inr_le (L : List (List Char)) (i : Nat) (acc : List ChoiceOption)
    (o : List ChoiceOption) (r : List (List Char)) (j : Nat)
    (h : parseOptions L i acc = Sum.inr (o, r, j)) : r.length ≤ L.length := by
  induction L generalizing i acc with
  | nil =>
    simp only [parseOptions] at h
    cases h
    exact Nat.le_refl _
  | cons l ls ih =>
    simp only [parseOptions] at h
    split at h
    · exact Nat.le_trans (ih _ _ h) (Nat.le_succ _)
    · split at h
      · cases h
        exact Nat.le_refl _
      · split at h
        · cases h
        · exact Nat.le_trans (ih _ _ h) (Nat.le_succ _)

theorem parseChoiceTail_inr_le (e : List Char) (L : List (List Char)) (i : Nat)
    (b : BlockOk) (h : parseChoiceTail e L i = Sum.inr b) :
    b.rest.length ≤ L.length := by
  simp only [parseChoiceTail] at h
  split at h
  · cases h
  · rename_i opts rest j heq
    split at h
    · cases h
    · split at h
      · cases h
      · rename_i l ls
        split at h
        · cases h
        · split at h
          · cases h
          · cases h
            have := parseOptions_inr_le L i [] opts (l :: ls) j heq
            simp only [List.length_cons] at this
            exact Nat.le_trans (Nat.le_succ _) this

theorem parseFillTail_inr_le (e : List Char) (L : List (List Char)) (i : Nat)
    (b : BlockOk) (h : parseFillTail e L i = Sum.inr b) :
    b.rest.length ≤ L.length := by
  simp only [parseFillTail] at h
  split at h
  · cases h
  · rename_i l ls j heq
    split at h
    · cases h
    · split at h
      · cases h
      · cases h
        have h2 : ((skipBlank L i).1).length ≤ L.length := skipBlank_fst_le L i
        rw [heq] at h2
        simp only [List.length_cons] at h2
        exact Nat.le_trans (Nat.le_succ _) h2

theorem parseBlock_inr_le (l : List Char) (ls : List (List Char)) (i : Nat)
    (b : BlockOk) (h : parseBlock l ls i = Sum.inr b) :
    b.rest.length ≤ ls.length := by
  simp only [parseBlock] at h
  split at h
  · cases h
  · split at h
    · cases h
    · split at h
      · simpa using parseChoiceTail_inr_le _ _ _ _ h
      · rename_i l2 ls2
        split at h
        · exact parseChoiceTail_inr_le _ _ _ _ h
        · split at h
          · exact Nat.le_trans (parseFillTail_inr_le _ _ _ _ h) (Nat.le_succ _)
          · exact Nat.le_trans (parseChoiceTail_inr_le _ _ _ _ h) (Nat.le_succ _)
          · exact parseChoiceTail_inr_le _ _ _ _ h

/-- The outer question loop of `parseExamText`.  The 1000-question cap check
sits in the source directly after `questions.push({entry, options,
correctIndex})` — i.e. only after a *choice* push; the fill branch
`continue`s before reaching it, which is mirrored by the `isChoiceQ` guard. -/
def parseLoop (lines : List (List Char)) (idx : Nat) (qs : List Question) :
    Sum (List Char) (List Question) :=
  match h1 : skipBlank lines idx with
  | ([], _) => Sum.inr qs
  | (l :: ls, i) =>
    match h2 : parseBlock l ls i with
    | Sum.inl m => Sum.inl m
    | Sum.inr b =>
      if isChoiceQ b.q && decide (1000 < (qs ++ [b.q]).length) then Sum.inl msgCap
      else parseLoop b.rest b.idx (qs ++ [b.q])
termination_by lines.length
decreasing_by
  have hs := skipBlank_fst_le lines idx
  rw [h1] at hs
  simp only [List.length_cons] at hs
  have hb := parseBlock_inr_le l ls i b h2
  omega

/-- `parseExamText` from `cloud-exams.ts`. -/
def parseExamText (raw : List Char) : ParseResult :=
  if (jsTrim raw).isEmpty then ParseResult.err msgEmpty
  else
    let lines := splitNl (replaceCRLF raw)
    match skipBlank lines 0 with
    | ([], _) => ParseResult.err msgMissingTitle
    | (l :: ls, i) =>
      match titleCapture (jsTrim l) with
      | none => ParseResult.err msgStartTitle
      | some cap =>
        match parseLoop ls (i + 1) [] with
        | Sum.inl m => ParseResult.err m
        | Sum.inr [] => ParseResult.err msgNoQuestions
        | Sum.inr qs => ParseResult.ok (jsTrim cap) qs

def titleLit : List Char := "Title: ".data
def questionLit : List Char := "Question ".data
def colonSpaceLit : List Char := ": ".data
def answerLit : List Char := "Answer: ".data
def typeFillLit : List Char := "Type: fill".data

/-- The lines pushed for one question by `serializeExam` (0-based position
`n`, so the heading reads `Question n+1`), including the trailing blank
separator line. -/
def serializeQuestion (n : Nat) (q : Question) : List (List Char) :=
  match q with
  | Question.fill entry ans =>
    [questionLit ++ natToChars (n + 1) ++ colonSpaceLit ++ entry,
     typeFillLit,
     answerLit ++ ans,
     []]
  | Question.choice entry opts ci =>
    (questionLit ++ natToChars (n + 1) ++ colonSpaceLit ++ entry) ::
      (opts.map (fun o => o.label ++ ". ".data ++ o.text) ++
        [answerLit ++ (match opts.get? ci with
          | some o => o.label
          | none => []),
         []])

def serializeBlocks : Nat → List Question → List (List Char)
  | _, [] => []
  | n, q :: rest => serializeQuestion n q ++ serializeBlocks (n + 1) rest

/-- The full `lines` array pushed by `serializeExam`. -/
def serializeLines (e : Exam) : List (List Char) :=
  (titleLit ++ e.title) :: [] :: serializeBlocks 0 e.questions

/-- `serializeExam` from `cloud-exams.ts`: `lines.join('\n').trim() + '\n'`. -/
def serializeExam (e : Exam) : List Char :=
  jsTrim (joinNl (serializeLines e)) ++ ['\n']

/-- Well-formedness of a text fragment destined for one serialized line:
non-empty, every character matchable by `.` (no line terminators), and no
leading or trailing JS whitespace (the fragment is its own `trim`). -/
def goodText (s : List Char) : Bool :=
  !s.isEmpty && s.all isDotChar && !isJsWs (s.headD ' ') && !isJsWs (s.reverse.headD ' ')

/-- Well-formed choice option: a single lowercase ASCII letter label and a
well-formed text. -/
def wfOption (o : ChoiceOption) : Bool :=
  (match o.label with
   | [c] => isLowAZ c
   | _ => false) && goodText o.text

/-- Well-formed question: well-formed texts, and for choice questions at
least two options, distinct labels, and an in-range correct index. -/
def wfQuestion : Question → Bool
  | Question.fill e a => goodText e && goodText a
  | Question.choice e opts ci =>
    goodText e && opts.all wfOption && decide (2 ≤ opts.length) &&
    decide (ci < opts.length) && decide ((opts.map (fun o => o.label)).Nodup)

/-- Well-formed exam, without a bound on the number of questions. -/
def wfExamBase (e : Exam) : Bool :=
  goodText e.title && !e.questions.isEmpty && e.questions.all wfQuestion

/-- Well-formed exam with 1 to 1000 questions. -/
def wfExam (e : Exam) : Bool :=
  wfExamBase e && decide (e.questions.length ≤ 1000)

/-- Whether the question loop runs to completion without tripping the
1000-question cap, starting from `k` already-collected questions: the check
fires only when a *choice* question is appended while the running count
exceeds 1000. -/
def capOkB : Nat → List Question → Bool
  | _, [] => true
  | k, q :: rest =>
    if isChoiceQ q && decide (1000 < k + 1) then false else capOkB (k + 1) rest

theorem jsDigit_not_ws {c : Char} (h : jsDigit c = true) : isJsWs c = false := by
  simp only [jsDigit, Bool.and_eq_true, decide_eq_true_eq] at h
  simp only [isJsWs, Bool.or_eq_false_iff, Bool.and_eq_false_iff,
    decide_eq_false_iff_not]
  omega

theorem jsDigit_dot {c : Char} (h : jsDigit c = true) : isDotChar c = true := by
  simp only [jsDigit, Bool.and_eq_true, decide_eq_true_eq] at h
  simp only [isDotChar, Bool.or_eq_false_iff, decide_eq_false_iff_not, Bool.not_eq_true']
  omega

theorem lowAZ_letter {c : Char} (h : isLowAZ c = true) : isAsciiLetter c = true := by
  simp only [isLowAZ, Bool.and_eq_true, decide_eq_true_eq] at h
  simp only [isAsciiLetter, Bool.or_eq_true, Bool.and_eq_true, decide_eq_true_eq]
  omega

theorem letter_not_ws {c : Char} (h : isAsciiLetter c = true) : isJsWs c = false := by
  simp only [isAsciiLetter, Bool.or_eq_true, Bool.and_eq_true, decide_eq_true_eq] at h
  simp only [isJsWs, Bool.or_eq_false_iff, Bool.and_eq_false_iff,
    decide_eq_false_iff_not]
  omega

theorem letter_dot {c : Char} (h : isAsciiLetter c = true) : isDotChar c = true := by
  simp only [isAsciiLetter, Bool.or_eq_true, Bool.and_eq_true, decide_eq_true_eq] at h
  simp only [isDotChar, Bool.or_eq_false_iff, decide_eq_false_iff_not, Bool.not_eq_true']
  omega

theorem lowerChar_fix {c : Char} (h : isLowAZ c = true) : lowerChar c = c := by
  simp only [isLowAZ, Bool.and_eq_true, decide_eq_true_eq] at h
  simp only [lowerChar, Bool.and_eq_true, decide_eq_true_eq]
  rw [if_neg]
  omega

theorem digitChar_digit {d : Nat} (h : d < 10) : jsDigit (digitChar d) = true := by
  interval_cases d <;> decide

theorem natToCharsGo_spec :
    ∀ fuel n, n < fuel →
      natToCharsGo fuel n ≠ [] ∧ (natToCharsGo fuel n).all jsDigit = true := by
  intro fuel
  induction fuel with
  | zero => intro n h; omega
  | succ f ih =>
    intro n _
    by_cases h10 : n < 10
    · simp only [natToCharsGo, if_pos h10]
      refine ⟨by simp, ?_⟩
      simp [List.all_cons, digitChar_digit h10]
    · simp only [natToCharsGo, if_neg h10]
      have hdiv : n / 10 < f := by
        have h1 : n / 10 < n := Nat.div_lt_self (by omega) (by omega)
        omega
      obtain ⟨hne, hall⟩ := ih (n / 10) hdiv
      constructor
      · simp
      · rw [List.all_append]
        simp [hall, digitChar_digit (Nat.mod_lt n (by omega))]

theorem natToChars_ne_nil (n : Nat) : natToChars n ≠ [] :=
  (natToCharsGo_spec (n + 1) n (Nat.lt_succ_self n)).1

theorem natToChars_all_digit (n : Nat) : (natToChars n).all jsDigit = true :=
  (natToCharsGo_spec (n + 1) n (Nat.lt_succ_self n)).2

theorem goodText_ne_nil {s : List Char} (h : goodText s = true) : s ≠ [] := by
  intro hs
  subst hs
  simp [goodText] at h

theorem goodText_all_dot {s : List Char} (h : goodText s = true) :
    s.all isDotChar = true := by
  simp only [goodText, Bool.and_eq_true] at h
  exact h.1.1.2

theorem goodText_head {s : List Char} (h : goodText s = true) :
    isJsWs (s.headD ' ') = false := by
  simp only [goodText, Bool.and_eq_true, Bool.not_eq_true'] at h
  exact h.1.2

theorem goodText_last {s : List Char} (h : goodText s = true) :
    isJsWs (s.reverse.headD ' ') = false := by
  simp only [goodText, Bool.and_eq_true, Bool.not_eq_true'] at h
  exact h.2

theorem jsTrim_eq_of (s : List Char) (hne : s ≠ [])
    (hh : isJsWs (s.headD ' ') = false)
    (hl : isJsWs (s.reverse.headD ' ') = false) : jsTrim s = s := by
  obtain ⟨c, t, rfl⟩ := List.exists_cons_of_ne_nil hne
  simp only [List.headD_cons] at hh
  have h1 : (c :: t).dropWhile isJsWs = c :: t := by
    simp [List.dropWhile_cons, hh]
  have hrne : (c :: t).reverse ≠ [] := by simp
  obtain ⟨c', t', hrev⟩ := List.exists_cons_of_ne_nil hrne
  rw [hrev] at hl
  simp only [List.headD_cons] at hl
  have h2 : ((c :: t).reverse).dropWhile isJsWs = (c :: t).reverse := by
    rw [hrev]; simp [List.dropWhile_cons, hl]
  simp only [jsTrim, h1, h2, List.reverse_reverse]

theorem goodText_jsTrim {s : List Char} (h : goodText s = true) : jsTrim s = s :=
  jsTrim_eq_of s (goodText_ne_nil h) (goodText_head h) (goodText_last h)

theorem reverse_headD_append {x : List Char} (A : List Char) (hx : x ≠ []) :
    ((A ++ x).reverse).headD ' ' = (x.reverse).headD ' ' := by
  rw [List.reverse_append]
  cases hxr : x.reverse with
  | nil => exact absurd (List.reverse_eq_nil_iff.mp hxr) hx
  | cons c t => simp

/-- Trim-stability of a line of the form `c :: mid ++ x` whose first
character is non-whitespace and whose tail fragment `x` is non-empty and
ends in a non-whitespace character. -/
theorem jsTrim_line (c : Char) (mid x : List Char) (hc : isJsWs c = false)
    (hx : x ≠ []) (hxl : isJsWs (x.reverse.headD ' ') = false) :
    jsTrim (c :: (mid ++ x)) = c :: (mid ++ x) := by
  apply jsTrim_eq_of _ (by simp) (by simpa using hc)
  have : (c :: (mid ++ x)) = (c :: mid) ++ x := by simp
  rw [this, reverse_headD_append _ hx]
  exact hxl

/-- Case-insensitive letter-by-letter comparison of a concrete pattern with a
concrete literal. -/
def ciMatches : List Char → List Char → Bool
  | [], [] => true
  | p :: ps, c :: cs => (lowerChar c = p : Bool) && ciMatches ps cs
  | _, _ => false

theorem stripCI_append (p a s : List Char) (h : ciMatches p a = true) :
    stripCI p (a ++ s) = some s := by
  induction p generalizing a with
  | nil =>
    cases a with
    | nil => simp [stripCI]
    | cons c cs => simp [ciMatches] at h
  | cons q qs ih =>
    cases a with
    | nil => simp [ciMatches] at h
    | cons c cs =>
      simp only [ciMatches, Bool.and_eq_true, decide_eq_true_eq] at h
      simp only [List.cons_append, stripCI, if_pos h.1]
      exact ih cs h.2

theorem matchTailCapture_good {x : List Char} (h : goodText x = true) :
    matchTailCapture x = some x := by
  obtain ⟨c, t, rfl⟩ := List.exists_cons_of_ne_nil (goodText_ne_nil h)
  have hh := goodText_head h
  simp only [List.headD_cons] at hh
  have hd := goodText_all_dot h
  simp only [List.all_cons, Bool.and_eq_true] at hd
  simp [matchTailCapture, hh, hd.1, hd.2]

theorem matchTailCapture_space {x : List Char} (h : goodText x = true) :
    matchTailCapture (' ' :: x) = some x := by
  rw [matchTailCapture]
  simp [show isJsWs ' ' = true from by decide, matchTailCapture_good h]

theorem matchSepCapture_line {x : List Char} (h : goodText x = true) :
    matchSepCapture (':' :: ' ' :: x) = some x := by
  rw [matchSepCapture]
  simp [List.dropWhile_cons, show isJsWs ':' = false from by decide,
    matchTailCapture_space h]

theorem titleCapture_line {t : List Char} (h : goodText t = true) :
    titleCapture (titleLit ++ t) = some t := by
  have hsplit : titleLit ++ t = "Title".data ++ (':' :: ' ' :: t) := rfl
  rw [titleCapture, hsplit, stripCI_append _ _ _ (by decide)]
  exact matchSepCapture_line h

theorem dropWhile_append_all {p : Char → Bool} {l : List Char} (r : List Char)
    (h : l.all p = true) : (l ++ r).dropWhile p = r.dropWhile p := by
  induction l with
  | nil => simp
  | cons c cs ih =>
    simp only [List.all_cons, Bool.and_eq_true] at h
    simp [List.dropWhile_cons, h.1, ih h.2]

theorem questionCapture_line {entry : List Char} (n : Nat) (h : goodText entry = true) :
    questionCapture (questionLit ++ natToChars n ++ colonSpaceLit ++ entry)
      = some entry := by
  have hsplit : questionLit ++ natToChars n ++ colonSpaceLit ++ entry
      = "Question".data ++ (' ' :: (natToChars n ++ (':' :: ' ' :: entry))) := by
    simp only [List.append_assoc]
    rfl
  rw [questionCapture, hsplit, stripCI_append _ _ _ (by decide)]
  obtain ⟨d, ds, hD⟩ := List.exists_cons_of_ne_nil (natToChars_ne_nil n)
  have hDall := natToChars_all_digit n
  have hdall : ds.all jsDigit = true ∧ jsDigit d = true := by
    rw [hD, List.all_cons, Bool.and_eq_true] at hDall
    exact ⟨hDall.2, hDall.1⟩
  have hdw : (natToChars n ++ (':' :: ' ' :: entry)).dropWhile isJsWs
      = natToChars n ++ (':' :: ' ' :: entry) := by
    rw [hD, List.cons_append, List.dropWhile_cons, if_neg]
    simp [jsDigit_not_ws hdall.2]
  have hdig : (natToChars n ++ (':' :: ' ' :: entry)).dropWhile jsDigit
      = ':' :: ' ' :: entry := by
    rw [dropWhile_append_all _ hDall, List.dropWhile_cons,
      if_neg (by simp [show jsDigit ':' = false from by decide])]
  have hnum : matchNumGroup (' ' :: (natToChars n ++ (':' :: ' ' :: entry)))
      = some (':' :: ' ' :: entry) := by
    rw [matchNumGroup]
    simp only [show isJsWs ' ' = true from by decide, if_pos, List.dropWhile_cons]
    rw [hdw, hD]
    simp only [List.cons_append, if_pos hdall.2]
    rw [← List.cons_append, ← hD, hdig]
  simp only [hnum, matchSepCapture_line h]

theorem optionCapture_line {c : Char} {text : List Char} (hc : isLowAZ c = true)
    (ht : goodText text = true) :
    optionCapture (c :: '.' :: ' ' :: text) = some (c, text) := by
  rw [optionCapture]
  simp [lowAZ_letter hc, matchTailCapture_space ht]

theorem answerLetterCapture_line {d : Char} (hd : isAsciiLetter d = true) :
    answerLetterCapture (answerLit ++ [d]) = some d := by
  have hsplit : answerLit ++ [d] = "Answer".data ++ (':' :: ' ' :: [d]) := rfl
  rw [answerLetterCapture, hsplit, stripCI_append _ _ _ (by decide)]
  have h1 : (':' :: ' ' :: [d]).dropWhile isJsWs = ':' :: ' ' :: [d] := by
    simp [List.dropWhile_cons, show isJsWs ':' = false from by decide]
  have h2 : (' ' :: [d]).dropWhile isJsWs = [d] := by
    simp [List.dropWhile_cons, show isJsWs ' ' = true from by decide,
      letter_not_ws hd]
  simp only [h1, h2, hd, if_true]
  simp

theorem answerTextCapture_line {ans : List Char} (h : goodText ans = true) :
    answerTextCapture (answerLit ++ ans) = some ans := by
  have hsplit : answerLit ++ ans = "Answer".data ++ (':' :: ' ' :: ans) := rfl
  rw [answerTextCapture, hsplit, stripCI_append _ _ _ (by decide)]
  exact matchSepCapture_line h

theorem stripCI_answer_option (c : Char) (r : List Char) :
    stripCI ("answer".data) (c :: '.' :: r) = none := by
  show stripCI ('a' :: "nswer".data) (c :: '.' :: r) = none
  rw [stripCI]
  split
  · rw [show ("nswer".data) = 'n' :: "swer".data from rfl, stripCI]
    rw [if_neg (by decide)]
  · rfl

theorem answerLetterCapture_option (c : Char) (r : List Char) :
    answerLetterCapture (c :: '.' :: r) = none := by
  rw [answerLetterCapture, stripCI_answer_option]

theorem stripCI_type_option (c : Char) (r : List Char) :
    stripCI ("type".data) (c :: '.' :: r) = none := by
  show stripCI ('t' :: "ype".data) (c :: '.' :: r) = none
  rw [stripCI]
  split
  · rw [show ("ype".data) = 'y' :: "pe".data from rfl, stripCI]
    rw [if_neg (by decide)]
  · rfl

theorem typeCapture_option (c : Char) (r : List Char) :
    typeCapture (c :: '.' :: r) = none := by
  rw [typeCapture, stripCI_type_option]

theorem typeCapture_fill_line : typeCapture (typeFillLit) = some QuestionKind.fill := by
  decide

/-- The trimmed option line for a well-formed option. -/
theorem wfOption_shape {o : ChoiceOption} (h : wfOption o = true) :
    ∃ c, o.label = [c] ∧ isLowAZ c = true ∧ goodText o.text = true := by
  simp only [wfOption, Bool.and_eq_true] at h
  obtain ⟨h1, h2⟩ := h
  cases hl : o.label with
  | nil => rw [hl] at h1; simp at h1
  | cons c rest =>
    cases rest with
    | nil => exact ⟨c, rfl, by rw [hl] at h1; exact h1, h2⟩
    | cons _ _ => rw [hl] at h1; simp at h1

/-- A serialized option line, as emitted by `serializeExam`. -/
def optLine (o : ChoiceOption) : List Char := o.label ++ ". ".data ++ o.text

theorem optLine_shape {o : ChoiceOption} (h : wfOption o = true) :
    ∃ c, o.label = [c] ∧ isLowAZ c = true ∧ goodText o.text = true ∧
      optLine o = c :: '.' :: ' ' :: o.text := by
  obtain ⟨c, hl, hc, ht⟩ := wfOption_shape h
  exact ⟨c, hl, hc, ht, by rw [optLine, hl]; rfl⟩

theorem jsTrim_optLine {o : ChoiceOption} (h : wfOption o = true) :
    jsTrim (optLine o) = optLine o := by
  obtain ⟨c, hl, hc, ht, hline⟩ := optLine_shape h
  rw [hline]
  have : c :: '.' :: ' ' :: o.text = c :: (['.', ' '] ++ o.text) := rfl
  rw [this]
  exact jsTrim_line c _ _ (letter_not_ws (lowAZ_letter hc)) (goodText_ne_nil ht)
    (goodText_last ht)

theorem jsTrim_answerLetterLine {d : Char} (hd : isAsciiLetter d = true) :
    jsTrim (answerLit ++ [d]) = answerLit ++ [d] := by
  have hsplit : answerLit ++ [d] = 'A' :: ("nswer: ".data ++ [d]) := rfl
  rw [hsplit]
  refine jsTrim_line 'A' _ _ (by decide) (by simp) ?_
  simp [letter_not_ws hd]

theorem jsTrim_answerTextLine {ans : List Char} (h : goodText ans = true) :
    jsTrim (answerLit ++ ans) = answerLit ++ ans := by
  have hsplit : answerLit ++ ans = 'A' :: ("nswer: ".data ++ ans) := rfl
  rw [hsplit]
  exact jsTrim_line 'A' _ _ (by decide) (goodText_ne_nil h) (goodText_last h)

theorem jsTrim_titleLine {t : List Char} (h : goodText t = true) :
    jsTrim (titleLit ++ t) = titleLit ++ t := by
  have hsplit : titleLit ++ t = 'T' :: ("itle: ".data ++ t) := rfl
  rw [hsplit]
  exact jsTrim_line 'T' _ _ (by decide) (goodText_ne_nil h) (goodText_last h)

/-- The serialized question heading line. -/
def questionLine (n : Nat) (entry : List Char) : List Char :=
  questionLit ++ natToChars (n + 1) ++ colonSpaceLit ++ entry

theorem jsTrim_questionLine {entry : List Char} (n : Nat) (h : goodText entry = true) :
    jsTrim (questionLine n entry) = questionLine n entry := by
  have hsplit : questionLine n entry
      = 'Q' :: (("uestion ".data ++ natToChars (n + 1) ++ colonSpaceLit) ++ entry) := by
    rw [questionLine]
    simp only [List.append_assoc]
    rfl
  rw [hsplit]
  exact jsTrim_line 'Q' _ _ (by decide) (goodText_ne_nil h) (goodText_last h)

theorem jsTrim_typeFill : jsTrim (typeFillLit) = typeFillLit := by
  decide

theorem goodText_not_blank {s : List Char} (h : goodText s = true) :
    s.isEmpty = false := by
  cases s with
  | nil => exact absurd rfl (goodText_ne_nil h)
  | cons c t => rfl

theorem ne_nil_not_blank {s : List Char} (h : s ≠ []) : s.isEmpty = false := by
  cases s with
  | nil => exact absurd rfl h
  | cons c t => rfl

theorem findIndexJs_labels (opts : List ChoiceOption) (ci : Nat) (h : ci < opts.length)
    (hnd : (opts.map (fun o => o.label)).Nodup) :
    findIndexJs (fun o => o.label == (opts.get ⟨ci, h⟩).label) opts = some ci := by
  induction opts generalizing ci with
  | nil => simp at h
  | cons o os ih =>
    cases ci with
    | zero => simp [findIndexJs]
    | succ n =>
      have hn : n < os.length := by simpa using h
      have hget : (o :: os).get ⟨n + 1, h⟩ = os.get ⟨n, hn⟩ := rfl
      rw [hget, findIndexJs]
      have hmem : os.get ⟨n, hn⟩ ∈ os := List.get_mem _ _ _
      simp only [List.map_cons, List.nodup_cons] at hnd
      have hne : (o.label == (os.get ⟨n, hn⟩).label) = false := by
        refine beq_eq_false_iff_ne.mpr ?_
        intro heq
        exact hnd.1 (heq ▸ List.mem_map_of_mem _ hmem)
      rw [hne]
      simp only [Bool.false_eq_true, if_false, ih n hn hnd.2, Option.map_some']

theorem skipBlank_cons {l : List Char} (ls : List (List Char)) (idx : Nat)
    (h : (jsTrim l).isEmpty = false) : skipBlank (l :: ls) idx = (l :: ls, idx) := by
  rw [skipBlank, if_neg]
  simp [h]

theorem parseOptions_serialized (opts : List ChoiceOption) (rest0 : List (List Char))
    (d : Char) (idx : Nat) (acc : List ChoiceOption)
    (hw : opts.all wfOption = true) (hd : isAsciiLetter d = true) :
    parseOptions (opts.map optLine ++ (answerLit ++ [d]) :: rest0) idx acc
      = Sum.inr (acc ++ opts, (answerLit ++ [d]) :: rest0, idx + opts.length) := by
  induction opts generalizing idx acc with
  | nil =>
    rw [List.map_nil, List.nil_append, parseOptions]
    simp only [jsTrim_answerLetterLine hd,
      ne_nil_not_blank (show answerLit ++ [d] ≠ [] by simp),
      Bool.false_eq_true, if_false, answerLetterCapture_line hd, Option.isSome_some,
      if_true]
    simp
  | cons o os ih =>
    have hwo : wfOption o = true ∧ os.all wfOption = true := by
      rw [List.all_cons, Bool.and_eq_true] at hw
      exact hw
    obtain ⟨c, hl, hc, ht, hline⟩ := optLine_shape hwo.1
    rw [List.map_cons, List.cons_append, parseOptions]
    simp only [jsTrim_optLine hwo.1]
    rw [if_neg (by simp [ne_nil_not_blank (show optLine o ≠ [] by
      rw [hline]; simp)])]
    rw [hline, answerLetterCapture_option]
    simp only [Option.isSome_none, Bool.false_eq_true, if_false]
    rw [optionCapture_line hc ht]
    have hrebuild : (⟨[lowerChar c], jsTrim o.text⟩ : ChoiceOption) = o := by
      rw [lowerChar_fix hc, goodText_jsTrim ht, ← hl]
    show parseOptions (List.map optLine os ++ (answerLit ++ [d]) :: rest0)
        (idx + 1) (acc ++ [⟨[lowerChar c], jsTrim o.text⟩]) = _
    rw [hrebuild, ih _ _ hwo.2]
    have h3 : acc ++ [o] ++ os = acc ++ o :: os := by simp
    have h4 : idx + 1 + os.length = idx + (o :: os).length := by
      simp only [List.length_cons]
      omega
    rw [h3, h4]

theorem parseChoiceTail_serialized (entry : List Char) (opts : List ChoiceOption)
    (ci : Nat) (tail : List (List Char)) (idx : Nat) (d : Char)
    (hw : opts.all wfOption = true) (h2 : 2 ≤ opts.length) (hci : ci < opts.length)
    (hnd : (opts.map (fun o => o.label)).Nodup)
    (hd : (opts.get ⟨ci, hci⟩).label = [d]) (hdl : isLowAZ d = true) :
    parseChoiceTail entry
        (opts.map optLine ++ (answerLit ++ [d]) :: tail) idx
      = Sum.inr ⟨Question.choice entry opts ci, tail, idx + opts.length + 1⟩ := by
  rw [parseChoiceTail, parseOptions_serialized opts tail d idx [] hw (lowAZ_letter hdl)]
  simp only [List.nil_append]
  rw [if_neg (by omega)]
  rw [jsTrim_answerLetterLine (lowAZ_letter hdl), answerLetterCapture_line (lowAZ_letter hdl)]
  simp only [lowerChar_fix hdl]
  rw [show ([d] : List Char) = (opts.get ⟨ci, hci⟩).label from hd.symm,
    findIndexJs_labels opts ci hci hnd]

theorem parseFillTail_serialized (entry ans : List Char) (tail : List (List Char))
    (idx : Nat) (ha : goodText ans = true) :
    parseFillTail entry ((answerLit ++ ans) :: tail) idx
      = Sum.inr ⟨Question.fill entry ans, tail, idx + 1⟩ := by
  rw [parseFillTail, skipBlank_cons _ _ (by
    rw [jsTrim_answerTextLine ha]
    exact ne_nil_not_blank (by simp [answerLit]))]
  simp only [jsTrim_answerTextLine ha, answerTextCapture_line ha, goodText_jsTrim ha,
    goodText_not_blank ha, Bool.false_eq_true, if_false]

/-- The serialized answer line of a choice question. -/
def choiceAnswerLine (opts : List ChoiceOption) (ci : Nat) : List Char :=
  answerLit ++ (match opts.get? ci with
    | some o => o.label
    | none => [])

theorem serializeQuestion_choice (n : Nat) (entry : List Char)
    (opts : List ChoiceOption) (ci : Nat) :
    serializeQuestion n (Question.choice entry opts ci)
      = questionLine n entry :: (opts.map optLine ++ [choiceAnswerLine opts ci, []]) := rfl

theorem serializeQuestion_fill (n : Nat) (entry ans : List Char) :
    serializeQuestion n (Question.fill entry ans)
      = [questionLine n entry, typeFillLit, answerLit ++ ans, []] := rfl

theorem wfQuestion_choice {entry : List Char} {opts : List ChoiceOption} {ci : Nat}
    (h : wfQuestion (Question.choice entry opts ci) = true) :
    goodText entry = true ∧ opts.all wfOption = true ∧ 2 ≤ opts.length ∧
      ci < opts.length ∧ (opts.map (fun o => o.label)).Nodup := by
  simp only [wfQuestion, Bool.and_eq_true, decide_eq_true_eq] at h
  exact ⟨h.1.1.1.1, h.1.1.1.2, h.1.1.2, h.1.2, h.2⟩

theorem wfQuestion_fill {entry ans : List Char}
    (h : wfQuestion (Question.fill entry ans) = true) :
    goodText entry = true ∧ goodText ans = true := by
  simp only [wfQuestion, Bool.and_eq_true] at h
  exact h

theorem questionCapture_qline {entry : List Char} (n : Nat) (h : goodText entry = true) :
    questionCapture (jsTrim (questionLine n entry)) = some entry := by
  rw [jsTrim_questionLine n h, questionLine]
  exact questionCapture_line (n + 1) h

theorem parseBlock_serialized_choice (n : Nat) (entry : List Char)
    (opts : List ChoiceOption) (ci : Nat) (tail : List (List Char)) (idx : Nat)
    (hwq : wfQuestion (Question.choice entry opts ci) = true) :
    parseBlock (questionLine n entry)
        (opts.map optLine ++ [choiceAnswerLine opts ci] ++ tail) idx
      = Sum.inr ⟨Question.choice entry opts ci, tail, idx + opts.length + 2⟩ := by
  obtain ⟨he, hw, h2, hci, hnd⟩ := wfQuestion_choice hwq
  obtain ⟨d, hd, hdl⟩ : ∃ d, (opts.get ⟨ci, hci⟩).label = [d] ∧ isLowAZ d = true := by
    have hmem : opts.get ⟨ci, hci⟩ ∈ opts := List.get_mem _ _ _
    have := List.all_eq_true.mp hw _ hmem
    obtain ⟨d, hdd, hddl, _⟩ := wfOption_shape this
    exact ⟨d, hdd, hddl⟩
  have hans : choiceAnswerLine opts ci = answerLit ++ [d] := by
    rw [choiceAnswerLine, List.get?_eq_get hci]
    show answerLit ++ (opts.get ⟨ci, hci⟩).label = _
    rw [hd]
  obtain ⟨o1, os, rfl⟩ : ∃ o1 os, opts = o1 :: os := by
    cases opts with
    | nil => simp at h2
    | cons a b => exact ⟨a, b, rfl⟩
  have hwo1 : wfOption o1 = true := by
    rw [List.all_cons, Bool.and_eq_true] at hw
    exact hw.1
  obtain ⟨c1, hl1, hc1, ht1, hline1⟩ := optLine_shape hwo1
  have htc : typeCapture (jsTrim (optLine o1)) = none := by
    rw [jsTrim_optLine hwo1, hline1]
    exact typeCapture_option _ _
  have hblank1 : (jsTrim (optLine o1)).isEmpty = false := by
    rw [jsTrim_optLine hwo1]
    exact ne_nil_not_blank (by rw [hline1]; simp)
  rw [parseBlock]
  simp only [questionCapture_qline n he, goodText_jsTrim he, goodText_not_blank he,
    Bool.false_eq_true, if_false, List.map_cons, List.cons_append, hblank1, htc]
  have hre : optLine o1 :: (List.map optLine os ++ [choiceAnswerLine (o1 :: os) ci] ++ tail)
      = (o1 :: os).map optLine ++ (answerLit ++ [d]) :: tail := by
    rw [hans]
    simp
  rw [hre, parseChoiceTail_serialized entry (o1 :: os) ci tail (idx + 1) d hw h2 hci hnd hd hdl]
  have harith : idx + 1 + (o1 :: os).length + 1 = idx + (o1 :: os).length + 2 := by omega
  rw [harith]

theorem parseBlock_serialized_fill (n : Nat) (entry ans : List Char)
    (tail : List (List Char)) (idx : Nat)
    (hwq : wfQuestion (Question.fill entry ans) = true) :
    parseBlock (questionLine n entry)
        (typeFillLit :: (answerLit ++ ans) :: tail) idx
      = Sum.inr ⟨Question.fill entry ans, tail, idx + 3⟩ := by
  obtain ⟨he, ha⟩ := wfQuestion_fill hwq
  rw [parseBlock]
  simp only [questionCapture_qline n he, goodText_jsTrim he, goodText_not_blank he,
    Bool.false_eq_true, if_false, jsTrim_typeFill,
    ne_nil_not_blank (show typeFillLit ≠ [] by decide), typeCapture_fill_line]
  rw [parseFillTail_serialized entry ans tail (idx + 2) ha]

theorem parseLoop_end (lines : List (List Char)) (idx i : Nat) (qs : List Question)
    (h : skipBlank lines idx = ([], i)) : parseLoop lines idx qs = Sum.inr qs := by
  rw [parseLoop.eq_def]
  split
  · rfl
  · rename_i l ls j heq
    rw [h] at heq
    cases heq

theorem parseLoop_step (lines : List (List Char)) (idx i : Nat) (qs : List Question)
    (l : List Char) (ls : List (List Char)) (b : BlockOk)
    (h : skipBlank lines idx = (l :: ls, i)) (hb : parseBlock l ls i = Sum.inr b) :
    parseLoop lines idx qs =
      if isChoiceQ b.q && decide (1000 < (qs ++ [b.q]).length) then Sum.inl msgCap
      else parseLoop b.rest b.idx (qs ++ [b.q]) := by
  rw [parseLoop.eq_def]
  split
  · rename_i heq
    rw [h] at heq
    cases heq
  · rename_i l' ls' i' heq
    rw [h] at heq
    injection heq with heq1 heq2
    injection heq1 with heql heqls
    subst heql
    subst heqls
    subst heq2
    split
    · rename_i m hbm
      rw [hb] at hbm
      cases hbm
    · rename_i b' hbb
      rw [hb] at hbb
      injection hbb with hbb
      subst hbb
      rfl

theorem parseLoop_step_err (lines : List (List Char)) (idx i : Nat) (qs : List Question)
    (l : List Char) (ls : List (List Char)) (m : List Char)
    (h : skipBlank lines idx = (l :: ls, i)) (hb : parseBlock l ls i = Sum.inl m) :
    parseLoop lines idx qs = Sum.inl m := by
  rw [parseLoop.eq_def]
  split
  · rename_i heq
    rw [h] at heq
    cases heq
  · rename_i l' ls' i' heq
    rw [h] at heq
    injection heq with heq1 heq2
    injection heq1 with heql heqls
    subst heql
    subst heqls
    subst heq2
    split
    · rename_i m' hbm
      rw [hb] at hbm
      injection hbm with hbm
      subst hbm
      rfl
    · rename_i b' hbb
      rw [hb] at hbb
      cases hbb

theorem jsTrim_nil : jsTrim ([] : List Char) = [] := rfl

theorem skipBlank_blank_cons (X : List (List Char)) (idx : Nat) :
    skipBlank ([] :: X) idx = skipBlank X (idx + 1) := by
  rw [skipBlank, if_pos]
  rfl

theorem questionLine_ne_nil (n : Nat) (entry : List Char) : questionLine n entry ≠ [] := by
  rw [questionLine]
  simp [questionLit]

theorem jsTrim_questionLine_not_blank {entry : List Char} (n : Nat)
    (h : goodText entry = true) : (jsTrim (questionLine n entry)).isEmpty = false := by
  rw [jsTrim_questionLine n h]
  exact ne_nil_not_blank (questionLine_ne_nil n entry)

theorem capOkB_le (qs : List Question) : ∀ k, k + qs.length ≤ 1000 → capOkB k qs = true := by
  induction qs with
  | nil => intro k _; rfl
  | cons q rest ih =>
    intro k h
    rw [List.length_cons] at h
    rw [capOkB, if_neg]
    · exact ih (k + 1) (by omega)
    · simp only [Bool.and_eq_true, decide_eq_true_eq, not_and]
      intro _
      omega

theorem capOkB_nochoice (qs : List Question) :
    ∀ k, (∀ q ∈ qs, isChoiceQ q = false) → capOkB k qs = true := by
  induction qs with
  | nil => intro k _; rfl
  | cons q rest ih =>
    intro k h
    rw [capOkB, if_neg]
    · exact ih (k + 1) (fun q hq => h q (List.mem_cons_of_mem _ hq))
    · simp [h q (List.mem_cons_self _ _)]

/-- The outer loop over the serialized blocks of a well-formed question list,
started on the blank separator line that precedes them: it returns the
accumulated list extended with the questions, unless appending some choice
question pushes the count beyond 1000, in which case it fails with the cap
message. -/
theorem parseLoop_blocks (qs : List Question) :
    ∀ n idx acc, qs.all wfQuestion = true →
      parseLoop ([] :: serializeBlocks n qs) idx acc
        = if capOkB acc.length qs then Sum.inr (acc ++ qs) else Sum.inl msgCap := by
  induction qs with
  | nil =>
    intro n idx acc _
    have hsb : skipBlank ([] :: serializeBlocks n []) idx = ([], idx + 1) := by
      rw [serializeBlocks, skipBlank_blank_cons, skipBlank]
    rw [parseLoop_end _ _ _ _ hsb]
    simp [capOkB]
  | cons q rest ih =>
    intro n idx acc hw
    rw [List.all_cons, Bool.and_eq_true] at hw
    cases q with
    | choice entry opts ci =>
      obtain ⟨he, hwopts, h2, hci, hnd⟩ := wfQuestion_choice hw.1
      have hshape : serializeBlocks n (Question.choice entry opts ci :: rest)
          = questionLine n entry ::
            (opts.map optLine ++ [choiceAnswerLine opts ci]
              ++ ([] :: serializeBlocks (n + 1) rest)) := by
        rw [serializeBlocks, serializeQuestion_choice]
        simp
      have hsb : skipBlank ([] :: serializeBlocks n (Question.choice entry opts ci :: rest)) idx
          = (questionLine n entry ::
              (opts.map optLine ++ [choiceAnswerLine opts ci]
                ++ ([] :: serializeBlocks (n + 1) rest)), idx + 1) := by
        rw [hshape, skipBlank_blank_cons,
          skipBlank_cons _ _ (jsTrim_questionLine_not_blank n he)]
      have hpb := parseBlock_serialized_choice n entry opts ci
        ([] :: serializeBlocks (n + 1) rest) (idx + 1) hw.1
      rw [parseLoop_step _ _ _ _ _ _ _ hsb hpb]
      simp only [isChoiceQ, Bool.true_and, List.length_append, List.length_cons,
        List.length_nil, decide_eq_true_eq]
      rw [ih (n + 1) _ _ hw.2]
      rw [capOkB]
      simp only [isChoiceQ, Bool.true_and, decide_eq_true_eq]
      by_cases hcap : 1000 < acc.length + 1
      · rw [if_pos (by omega), if_pos hcap]
        simp
      · rw [if_neg (by omega), if_neg hcap]
        have hlen : (acc ++ [Question.choice entry opts ci]).length = acc.length + 1 := by
          simp
        rw [hlen]
        by_cases hok : capOkB (acc.length + 1) rest = true
        · rw [if_pos hok, if_pos hok]
          simp
        · rw [if_neg hok, if_neg hok]
    | fill entry ans =>
      obtain ⟨he, ha⟩ := wfQuestion_fill hw.1
      have hshape : serializeBlocks n (Question.fill entry ans :: rest)
          = questionLine n entry ::
            (typeFillLit :: (answerLit ++ ans) :: ([] :: serializeBlocks (n + 1) rest)) := by
        rw [serializeBlocks, serializeQuestion_fill]
        simp
      have hsb : skipBlank ([] :: serializeBlocks n (Question.fill entry ans :: rest)) idx
          = (questionLine n entry ::
              (typeFillLit :: (answerLit ++ ans) :: ([] :: serializeBlocks (n + 1) rest)),
             idx + 1) := by
        rw [hshape, skipBlank_blank_cons,
          skipBlank_cons _ _ (jsTrim_questionLine_not_blank n he)]
      have hpb := parseBlock_serialized_fill n entry ans
        ([] :: serializeBlocks (n + 1) rest) (idx + 1) hw.1
      rw [parseLoop_step _ _ _ _ _ _ _ hsb hpb]
      simp only [isChoiceQ, Bool.false_and, Bool.false_eq_true, if_false]
      rw [ih (n + 1) _ _ hw.2]
      rw [capOkB]
      simp only [isChoiceQ, Bool.false_and, Bool.false_eq_true, if_false]
      have hlen : (acc ++ [Question.fill entry ans]).length = acc.length + 1 := by simp
      rw [hlen]
      by_cases hok : capOkB (acc.length + 1) rest = true
      · rw [if_pos hok, if_pos hok]
        simp
      · rw [if_neg hok, if_neg hok]

theorem headD_append_left {u : List Char} (v : List Char) (d : Char) (hu : u ≠ []) :
    (u ++ v).headD d = u.headD d := by
  cases u with
  | nil => exact absurd rfl hu
  | cons c t => rfl

theorem joinNl_cons_ne {x : List Char} (r : List (List Char)) (hx : x ≠ []) :
    joinNl (x :: r) ≠ [] := by
  cases r with
  | nil => simpa [joinNl] using hx
  | cons y ys =>
    rw [joinNl]
    simp [hx]

theorem headD_joinNl_cons {x : List Char} (r : List (List Char)) (d : Char)
    (hx : x ≠ []) : (joinNl (x :: r)).headD d = x.headD d := by
  cases r with
  | nil => rfl
  | cons y ys =>
    rw [joinNl]
    exact headD_append_left _ _ hx

theorem joinNl_append_single (A : List (List Char)) (x : List Char) (hA : A ≠ []) :
    joinNl (A ++ [x]) = joinNl A ++ '\n' :: x := by
  induction A with
  | nil => exact absurd rfl hA
  | cons y ys ih =>
    cases ys with
    | nil => rfl
    | cons z zs =>
      have h3 : (z :: zs) ++ [x] = z :: (zs ++ [x]) := rfl
      calc joinNl ((y :: z :: zs) ++ [x])
          = joinNl (y :: z :: (zs ++ [x])) := rfl
        _ = y ++ '\n' :: joinNl (z :: (zs ++ [x])) := by rw [joinNl]
        _ = y ++ '\n' :: joinNl ((z :: zs) ++ [x]) := by rw [h3]
        _ = y ++ '\n' :: (joinNl (z :: zs) ++ '\n' :: x) := by rw [ih (by simp)]
        _ = joinNl (y :: z :: zs) ++ '\n' :: x := by
              rw [joinNl]
              simp

theorem revHead_joinNl_last (A : List (List Char)) {last : List Char}
    (hl : last ≠ []) :
    ((joinNl (A ++ [last])).reverse).headD ' ' = (last.reverse).headD ' ' := by
  have hrev : last.reverse ≠ [] := by simpa using hl
  cases A with
  | nil => rfl
  | cons y ys =>
    rw [joinNl_append_single _ _ (by simp), List.reverse_append]
    have h1 : ('\n' :: last).reverse = last.reverse ++ ['\n'] := by simp
    rw [h1]
    rw [List.append_assoc]
    exact headD_append_left _ _ hrev

theorem jsTrim_append_nl {s : List Char} (hne : s ≠ [])
    (hh : isJsWs (s.headD ' ') = false)
    (hl : isJsWs (s.reverse.headD ' ') = false) : jsTrim (s ++ ['\n']) = s := by
  obtain ⟨c, t, rfl⟩ := List.exists_cons_of_ne_nil hne
  simp only [List.headD_cons] at hh
  have h1 : ((c :: t) ++ ['\n']).dropWhile isJsWs = (c :: t) ++ ['\n'] := by
    simp [List.dropWhile_cons, hh]
  have hrne : (c :: t).reverse ≠ [] := by simp
  obtain ⟨c', t', hrev⟩ := List.exists_cons_of_ne_nil hrne
  rw [hrev] at hl
  simp only [List.headD_cons] at hl
  have h2 : (((c :: t) ++ ['\n']).reverse).dropWhile isJsWs = (c :: t).reverse := by
    rw [List.reverse_append]
    have : (['\n'] : List Char).reverse = ['\n'] := rfl
    rw [this]
    have hstep : (['\n'] ++ (c :: t).reverse : List Char).dropWhile isJsWs
        = ((c :: t).reverse).dropWhile isJsWs := by
      simp [List.dropWhile_cons, show isJsWs '\n' = true from by decide]
    rw [hstep, hrev]
    simp [List.dropWhile_cons, hl]
  rw [jsTrim, h1, h2, List.reverse_reverse]

theorem splitNl_single {x : List Char} (h : ∀ c ∈ x, c ≠ '\n') : splitNl x = [x] := by
  induction x with
  | nil => rfl
  | cons c t ih =>
    rw [splitNl, if_neg (h c (List.mem_cons_self _ _))]
    rw [ih (fun d hd => h d (List.mem_cons_of_mem _ hd))]

theorem splitNl_append {x : List Char} (t : List Char) (h : ∀ c ∈ x, c ≠ '\n') :
    splitNl (x ++ '\n' :: t) = x :: splitNl t := by
  induction x with
  | nil =>
    rw [List.nil_append, splitNl, if_pos rfl]
  | cons c cs ih =>
    rw [List.cons_append, splitNl, if_neg (h c (List.mem_cons_self _ _))]
    rw [ih (fun d hd => h d (List.mem_cons_of_mem _ hd))]

theorem splitNl_joinNl (L : List (List Char)) (hL : L ≠ [])
    (h : ∀ l ∈ L, ∀ c ∈ l, c ≠ '\n') : splitNl (joinNl L) = L := by
  induction L with
  | nil => exact absurd rfl hL
  | cons x r ih =>
    cases r with
    | nil =>
      rw [joinNl]
      exact splitNl_single (h x (List.mem_cons_self _ _))
    | cons y ys =>
      rw [joinNl, splitNl_append _ (h x (List.mem_cons_self _ _))]
      rw [ih (by simp) (fun l hl => h l (List.mem_cons_of_mem _ hl))]

theorem replaceCRLF_eq_self (s : List Char) (h : ∀ c ∈ s, c ≠ '\r') :
    replaceCRLF s = s := by
  induction s with
  | nil => rfl
  | cons c t ih =>
    cases t with
    | nil => rfl
    | cons d u =>
      rw [replaceCRLF, if_neg (by
        intro hcd
        exact h c (List.mem_cons_self _ _) hcd.1)]
      rw [ih (fun e he => h e (List.mem_cons_of_mem _ he))]

theorem mem_joinNl {c : Char} (L : List (List Char)) (h : c ∈ joinNl L) :
    c = '\n' ∨ ∃ l ∈ L, c ∈ l := by
  induction L with
  | nil => cases h
  | cons x r ih =>
    cases r with
    | nil =>
      right
      exact ⟨x, List.mem_cons_self _ _, h⟩
    | cons y ys =>
      rw [joinNl] at h
      rcases List.mem_append.mp h with hx | hrest
      · right
        exact ⟨x, List.mem_cons_self _ _, hx⟩
      · rcases List.mem_cons.mp hrest with hnl | hr
        · left
          exact hnl
        · rcases ih hr with hnl | ⟨l, hl, hc⟩
          · left
            exact hnl
          · right
            exact ⟨l, List.mem_cons_of_mem _ hl, hc⟩

/-- A line whose characters are neither LF nor CR. -/
def noTerm (s : List Char) : Prop := ∀ c ∈ s, c ≠ '\n' ∧ c ≠ '\r'

theorem noTerm_of_dot {s : List Char} (h : s.all isDotChar = true) : noTerm s := by
  intro c hc
  have hd := List.all_eq_true.mp h c hc
  simp only [isDotChar, Bool.not_eq_true', Bool.or_eq_false_iff,
    decide_eq_false_iff_not] at hd
  refine ⟨?_, ?_⟩
  · intro hcn
    subst hcn
    exact hd.1.1.1 (by decide)
  · intro hcn
    subst hcn
    exact hd.1.1.2 (by decide)

theorem noTerm_append {u v : List Char} (hu : noTerm u) (hv : noTerm v) :
    noTerm (u ++ v) := by
  intro c hc
  rcases List.mem_append.mp hc with h | h
  · exact hu c h
  · exact hv c h

theorem noTerm_digits {s : List Char} (h : s.all jsDigit = true) : noTerm s := by
  intro c hc
  have hd := List.all_eq_true.mp h c hc
  simp only [jsDigit, Bool.and_eq_true, decide_eq_true_eq] at hd
  refine ⟨?_, ?_⟩
  · intro hcn
    subst hcn
    have h10 : ('\n').toNat = 10 := by decide
    omega
  · intro hcn
    subst hcn
    have h13 : ('\r').toNat = 13 := by decide
    omega

theorem noTerm_goodText {s : List Char} (h : goodText s = true) : noTerm s :=
  noTerm_of_dot (goodText_all_dot h)

theorem noTerm_nil : noTerm [] := by
  intro c hc
  cases hc

theorem lowAZ_noTerm {c : Char} (hc : isLowAZ c = true) : c ≠ '\n' ∧ c ≠ '\r' := by
  simp only [isLowAZ, Bool.and_eq_true, decide_eq_true_eq] at hc
  refine ⟨?_, ?_⟩
  · intro h
    subst h
    have h10 : ('\n').toNat = 10 := by decide
    omega
  · intro h
    subst h
    have h13 : ('\r').toNat = 13 := by decide
    omega

theorem noTerm_titleLit : noTerm titleLit := by
  unfold noTerm titleLit
  decide

theorem noTerm_questionLit : noTerm questionLit := by
  unfold noTerm questionLit
  decide

theorem noTerm_colonSpaceLit : noTerm colonSpaceLit := by
  unfold noTerm colonSpaceLit
  decide

theorem noTerm_answerLit : noTerm answerLit := by
  unfold noTerm answerLit
  decide

theorem noTerm_typeFillLit : noTerm typeFillLit := by
  unfold noTerm typeFillLit
  decide

theorem noTerm_questionLine {entry : List Char} (n : Nat) (h : goodText entry = true) :
    noTerm (questionLine n entry) := by
  rw [questionLine]
  exact noTerm_append (noTerm_append (noTerm_append noTerm_questionLit
    (noTerm_digits (natToChars_all_digit _))) noTerm_colonSpaceLit)
    (noTerm_goodText h)

theorem noTerm_optLine {o : ChoiceOption} (h : wfOption o = true) :
    noTerm (optLine o) := by
  obtain ⟨c, hl, hc, ht, hline⟩ := optLine_shape h
  rw [hline]
  intro e he
  rcases List.mem_cons.mp he with rfl | he
  · exact lowAZ_noTerm hc
  · rcases List.mem_cons.mp he with rfl | he
    · exact ⟨by decide, by decide⟩
    · rcases List.mem_cons.mp he with rfl | he
      · exact ⟨by decide, by decide⟩
      · exact noTerm_goodText ht e he

theorem noTerm_choiceAnswerLine {opts : List ChoiceOption} (ci : Nat)
    (h : opts.all wfOption = true) : noTerm (choiceAnswerLine opts ci) := by
  rw [choiceAnswerLine]
  refine noTerm_append noTerm_answerLit ?_
  cases hg : opts.get? ci with
  | none => exact noTerm_nil
  | some o =>
    have hmem : o ∈ opts := List.get?_mem hg
    obtain ⟨c, hl, hc, _⟩ := wfOption_shape (List.all_eq_true.mp h o hmem)
    show noTerm o.label
    rw [hl]
    intro e he
    rcases List.mem_cons.mp he with rfl | he
    · exact lowAZ_noTerm hc
    · cases he

theorem noTerm_serializeBlocks (qs : List Question) :
    ∀ n, qs.all wfQuestion = true → ∀ l ∈ serializeBlocks n qs, noTerm l := by
  induction qs with
  | nil =>
    intro n _ l hl
    cases hl
  | cons q rest ih =>
    intro n hw l hl
    rw [List.all_cons, Bool.and_eq_true] at hw
    rw [serializeBlocks] at hl
    rcases List.mem_append.mp hl with hql | hrest
    · cases q with
      | choice entry opts ci =>
        obtain ⟨he, hwopts, _, _, _⟩ := wfQuestion_choice hw.1
        rw [serializeQuestion_choice] at hql
        rcases List.mem_cons.mp hql with rfl | hql
        · exact noTerm_questionLine n he
        · rcases List.mem_append.mp hql with hopt | hrest2
          · obtain ⟨o, ho, rfl⟩ := List.mem_map.mp hopt
            exact noTerm_optLine (List.all_eq_true.mp hwopts o ho)
          · rcases List.mem_cons.mp hrest2 with rfl | hrest3
            · exact noTerm_choiceAnswerLine ci hwopts
            · rcases List.mem_cons.mp hrest3 with rfl | hrest4
              · exact noTerm_nil
              · cases hrest4
      | fill entry ans =>
        obtain ⟨he, ha⟩ := wfQuestion_fill hw.1
        rw [serializeQuestion_fill] at hql
        rcases List.mem_cons.mp hql with rfl | hql
        · exact noTerm_questionLine n he
        · rcases List.mem_cons.mp hql with rfl | hql
          · exact noTerm_typeFillLit
          · rcases List.mem_cons.mp hql with rfl | hql
            · exact noTerm_append noTerm_answerLit (noTerm_goodText ha)
            · rcases List.mem_cons.mp hql with rfl | hql
              · exact noTerm_nil
              · cases hql
    · exact ih (n + 1) hw.2 l hrest

theorem noTerm_serializeLines {e : Exam} (ht : goodText e.title = true)
    (hw : e.questions.all wfQuestion = true) :
    ∀ l ∈ serializeLines e, noTerm l := by
  intro l hl
  rw [serializeLines] at hl
  rcases List.mem_cons.mp hl with rfl | hl
  · exact noTerm_append noTerm_titleLit (noTerm_goodText ht)
  · rcases List.mem_cons.mp hl with rfl | hl
    · exact noTerm_nil
    · exact noTerm_serializeBlocks e.questions 0 hw l hl

theorem blocks_split (qs : List Question) :
    ∀ n, qs ≠ [] → qs.all wfQuestion = true →
      ∃ B last, serializeBlocks n qs = B ++ [last, []] ∧ last ≠ [] ∧
        isJsWs (last.reverse.headD ' ') = false := by
  induction qs with
  | nil =>
    intro n h _
    exact absurd rfl h
  | cons q rest ih =>
    intro n _ hw
    rw [List.all_cons, Bool.and_eq_true] at hw
    cases rest with
    | nil =>
      cases q with
      | choice entry opts ci =>
        obtain ⟨he, hwopts, h2, hci, hnd⟩ := wfQuestion_choice hw.1
        obtain ⟨d, hd, hdl⟩ : ∃ d, (opts.get ⟨ci, hci⟩).label = [d] ∧ isLowAZ d = true := by
          have hmem : opts.get ⟨ci, hci⟩ ∈ opts := List.get_mem _ _ _
          obtain ⟨d, hdd, hddl, _⟩ := wfOption_shape (List.all_eq_true.mp hwopts _ hmem)
          exact ⟨d, hdd, hddl⟩
        have hans : choiceAnswerLine opts ci = answerLit ++ [d] := by
          rw [choiceAnswerLine, List.get?_eq_get hci]
          show answerLit ++ (opts.get ⟨ci, hci⟩).label = _
          rw [hd]
        refine ⟨questionLine n entry :: opts.map optLine, choiceAnswerLine opts ci, ?_, ?_, ?_⟩
        · rw [serializeBlocks, serializeBlocks, serializeQuestion_choice]
          simp
        · rw [hans]
          simp [answerLit]
        · rw [hans, reverse_headD_append _ (by simp)]
          have : (([d] : List Char).reverse).headD ' ' = d := rfl
          rw [this]
          exact letter_not_ws (lowAZ_letter hdl)
      | fill entry ans =>
        obtain ⟨he, ha⟩ := wfQuestion_fill hw.1
        refine ⟨[questionLine n entry, typeFillLit], answerLit ++ ans, ?_, ?_, ?_⟩
        · rw [serializeBlocks, serializeBlocks, serializeQuestion_fill]
          simp
        · simp [answerLit]
        · rw [reverse_headD_append _ (goodText_ne_nil ha)]
          exact goodText_last ha
    | cons q2 rest2 =>
      obtain ⟨B, last, hB, hlne, hlws⟩ := ih (n + 1) (by simp) hw.2
      refine ⟨serializeQuestion n q ++ B, last, ?_, hlne, hlws⟩
      rw [serializeBlocks, hB]
      simp

theorem serializeExam_decomp {e : Exam} (ht : goodText e.title = true)
    (hw : e.questions.all wfQuestion = true) (hne : e.questions ≠ []) :
    serializeExam e = joinNl (serializeLines e) ∧
      (jsTrim (serializeExam e)).isEmpty = false := by
  obtain ⟨B, last, hB, hlne, hlws⟩ := blocks_split e.questions 0 hne hw
  have hL : serializeLines e = (((titleLit ++ e.title) :: [] :: B) ++ [last]) ++ [[]] := by
    rw [serializeLines, hB]
    simp
  have htitle_ne : titleLit ++ e.title ≠ [] := by simp [titleLit]
  have hAne : ((titleLit ++ e.title) :: [] :: B) ++ [last] ≠ [] := by simp
  have hjoin : joinNl (serializeLines e)
      = joinNl (((titleLit ++ e.title) :: [] :: B) ++ [last]) ++ ['\n'] := by
    rw [hL, joinNl_append_single _ _ hAne]
  have hfrontcons : ((titleLit ++ e.title) :: [] :: B) ++ [last]
      = (titleLit ++ e.title) :: (([] :: B) ++ [last]) := by simp
  have hSne : joinNl (((titleLit ++ e.title) :: [] :: B) ++ [last]) ≠ [] := by
    rw [hfrontcons]
    exact joinNl_cons_ne _ htitle_ne
  have hSh : isJsWs ((joinNl (((titleLit ++ e.title) :: [] :: B) ++ [last])).headD ' ')
      = false := by
    rw [hfrontcons, headD_joinNl_cons _ _ htitle_ne]
    have hT : (titleLit ++ e.title).headD ' ' = 'T' := rfl
    rw [hT]
    decide
  have hSl : isJsWs
      (((joinNl (((titleLit ++ e.title) :: [] :: B) ++ [last])).reverse).headD ' ')
      = false := by
    rw [revHead_joinNl_last _ hlne]
    exact hlws
  have hserial : serializeExam e = joinNl (serializeLines e) := by
    rw [serializeExam, hjoin, jsTrim_append_nl hSne hSh hSl]
  refine ⟨hserial, ?_⟩
  rw [hserial, hjoin, jsTrim_append_nl hSne hSh hSl]
  exact ne_nil_not_blank hSne

theorem parseExamText_via (raw l : List Char) (ls : List (List Char)) (i : Nat)
    (cap : List Char)
    (h0 : (jsTrim raw).isEmpty = false)
    (h1 : skipBlank (splitNl (replaceCRLF raw)) 0 = (l :: ls, i))
    (h2 : titleCapture (jsTrim l) = some cap) :
    parseExamText raw = match parseLoop ls (i + 1) [] with
      | Sum.inl m => ParseResult.err m
      | Sum.inr [] => ParseResult.err msgNoQuestions
      | Sum.inr qs => ParseResult.ok (jsTrim cap) qs := by
  rw [parseExamText, if_neg (by simp [h0])]
  simp only [h1, h2]

/-- Round trip: parsing the serialization of a well-formed exam (with no
bound on the question count) reproduces the title and the questions exactly,
unless appending some choice question pushes the running count beyond 1000,
in which case parsing fails with the cap message. -/
theorem parse_serialize (e : Exam) (ht : goodText e.title = true)
    (hw : e.questions.all wfQuestion = true) (hne : e.questions ≠ []) :
    parseExamText (serializeExam e)
      = if capOkB 0 e.questions then ParseResult.ok e.title e.questions
        else ParseResult.err msgCap := by
  obtain ⟨hser, h0⟩ := serializeExam_decomp ht hw hne
  have hnoNl : ∀ l ∈ serializeLines e, ∀ c ∈ l, c ≠ '\n' :=
    fun l hl c hc => (noTerm_serializeLines ht hw l hl c hc).1
  have hnoCr : ∀ c ∈ serializeExam e, c ≠ '\r' := by
    rw [hser]
    intro c hc
    rcases mem_joinNl _ hc with rfl | ⟨l, hl, hcl⟩
    · decide
    · exact (noTerm_serializeLines ht hw l hl c hcl).2
  have hlines : splitNl (replaceCRLF (serializeExam e)) = serializeLines e := by
    rw [replaceCRLF_eq_self _ hnoCr, hser,
      splitNl_joinNl _ (by rw [serializeLines]; simp) hnoNl]
  have htitle_ne : titleLit ++ e.title ≠ [] := by simp [titleLit]
  have hsb : skipBlank (splitNl (replaceCRLF (serializeExam e))) 0
      = ((titleLit ++ e.title) :: ([] :: serializeBlocks 0 e.questions), 0) := by
    rw [hlines, serializeLines]
    exact skipBlank_cons _ _ (by
      rw [jsTrim_titleLine ht]
      exact ne_nil_not_blank htitle_ne)
  have hcap : titleCapture (jsTrim (titleLit ++ e.title)) = some e.title := by
    rw [jsTrim_titleLine ht]
    exact titleCapture_line ht
  rw [parseExamText_via _ _ _ _ _ h0 hsb hcap]
  rw [parseLoop_blocks e.questions 0 1 [] hw]
  simp only [List.length_nil, List.nil_append]
  by_cases hok : capOkB 0 e.questions = true
  · rw [if_pos hok, if_pos hok]
    obtain ⟨q, qs', hqs⟩ := List.exists_cons_of_ne_nil hne
    rw [hqs]
    rw [goodText_jsTrim ht]
  · rw [if_neg hok, if_neg hok]

theorem parseExamText_title_err (raw l : List Char) (ls : List (List Char)) (i : Nat)
    (h0 : (jsTrim raw).isEmpty = false)
    (h1 : skipBlank (splitNl (replaceCRLF raw)) 0 = (l :: ls, i))
    (h2 : titleCapture (jsTrim l) = none) :
    parseExamText raw = ParseResult.err msgStartTitle := by
  rw [parseExamText, if_neg (by simp [h0])]
  simp only [h1, h2]

theorem parseExamText_err_in_loop (raw l : List Char) (ls : List (List Char)) (i : Nat)
    (cap m : List Char)
    (h0 : (jsTrim raw).isEmpty = false)
    (h1 : skipBlank (splitNl (replaceCRLF raw)) 0 = (l :: ls, i))
    (h2 : titleCapture (jsTrim l) = some cap)
    (h3 : parseLoop ls (i + 1) [] = Sum.inl m) :
    parseExamText raw = ParseResult.err m := by
  rw [parseExamText_via _ _ _ _ _ h0 h1 h2, h3]

/-- Whether `pat` occurs at the start of `s`. -/
def startsWithL : List Char → List Char → Bool
  | [], _ => true
  | _ :: _, [] => false
  | p :: ps, c :: cs => (p = c : Bool) && startsWithL ps cs

/-- Whether `pat` occurs contiguously anywhere in the second list; used to
state that an error message mentions a line number. -/
def hasSub (pat : List Char) : List Char → Bool
  | [] => pat.isEmpty
  | c :: rest => startsWithL pat (c :: rest) || hasSub pat rest

/-- A one-step error evaluation of `parseLoop` on concrete input, packaged so
the concrete components can each be checked by `decide`. -/
theorem parseLoop_concrete_err (lines : List (List Char)) (idx i : Nat)
    (l : List Char) (ls : List (List Char)) (m : List Char)
    (h : skipBlank lines idx = (l :: ls, i)) (hb : parseBlock l ls i = Sum.inl m) :
    parseLoop lines idx [] = Sum.inl m :=
  parseLoop_step_err lines idx i [] l ls m h hb

/-- Association-list model of a JS object used as a string-keyed map:
property read. -/
def kvGet {V : Type} : List (List Char × V) → List Char → Option V
  | [], _ => none
  | (k', v) :: t, k => if k' = k then some v else kvGet t k

/-- Property write: overwrite the first binding of the key, or append. -/
def kvSet {V : Type} : List (List Char × V) → List Char → V → List (List Char × V)
  | [], k, v => [(k, v)]
  | (k', v') :: t, k, v => if k' = k then (k, v) :: t else (k', v') :: kvSet t k v

/-- Property delete. -/
def kvRemove {V : Type} : List (List Char × V) → List Char → List (List Char × V)
  | [], _ => []
  | (k', v') :: t, k => if k' = k then t else (k', v') :: kvRemove t k

theorem kvGet_kvSet {V : Type} (m : List (List Char × V)) (k : List Char) (v : V) :
    kvGet (kvSet m k v) k = some v := by
  induction m with
  | nil => simp [kvSet, kvGet]
  | cons p t ih =>
    obtain ⟨k', v'⟩ := p
    by_cases h : k' = k
    · simp [kvSet, kvGet, h]
    · simp [kvSet, kvGet, h, ih]

/-- Modelled from the spec: the four fixed store namespaces of §4.2/§6
("users", "exams", "sessions", "attempts").  The `persistent-store.ts` under
`src/` types `StoreName` as only 'users' | 'exams' while the ledger module
calls the same store with 'sessions' and 'attempts'; the full enumeration
follows the spec's list of namespaces. -/
inductive StoreName where
  | users
  | exams
  | sessions
  | attempts
deriving DecidableEq

/-- `StorageMode` from `persistent-store.ts`. -/
inductive StorageMode where
  | indexedDB
  | localStorage
  | memory
deriving DecidableEq

/-- The environment capabilities the one-time probe consults: whether
`indexedDB` exists, whether `openDatabase()` resolves, and whether the
`localStorage` write probe succeeds. -/
structure StoreEnv where
  indexedDBAvailable : Bool
  openDatabaseOk : Bool
  localStorageOk : Bool
deriving DecidableEq

/-- Which backends a call actually probed (`isIndexedDBAvailable`/`openDatabase`,
`isLocalStorageAvailable`). -/
inductive Probe where
  | idb
  | ls
deriving DecidableEq

/-- The module-level mutable state of `persistent-store.ts`: the memoized
`storageMode`, the cached `dbPromise`, and the three backends' contents
(each namespace as a keyed map of values of type `V`). -/
structure StoreState (V : Type) where
  storageMode : Option StorageMode
  dbPromiseCached : Bool
  idbData : StoreName → List (List Char × V)
  lsData : StoreName → List (List Char × V)
  memData : StoreName → List (List Char × V)

def nsUpdate {V : Type} (f : StoreName → List (List Char × V)) (ns : StoreName)
    (m : List (List Char × V)) : StoreName → List (List Char × V) :=
  fun ns' => if ns' = ns then m else f ns'

/-- `ensureStorageMode`: return the memoized mode if set (probing nothing);
otherwise probe indexedDB (resetting `dbPromise` and falling through on
failure), then localStorage, then settle on memory.  Also returns the list
of probes performed. -/
def ensureStorageMode {V : Type} (env : StoreEnv) (s : StoreState V) :
    StorageMode × StoreState V × List Probe :=
  match s.storageMode with
  | some m => (m, s, [])
  | none =>
    if env.indexedDBAvailable then
      if env.openDatabaseOk then
        (StorageMode.indexedDB,
         { s with storageMode := some StorageMode.indexedDB, dbPromiseCached := true },
         [Probe.idb])
      else
        if env.localStorageOk then
          (StorageMode.localStorage,
           { s with storageMode := some StorageMode.localStorage, dbPromiseCached := false },
           [Probe.idb, Probe.ls])
        else
          (StorageMode.memory,
           { s with storageMode := some StorageMode.memory, dbPromiseCached := false },
           [Probe.idb, Probe.ls])
    else
      if env.localStorageOk then
        (StorageMode.localStorage,
         { s with storageMode := some StorageMode.localStorage }, [Probe.ls])
      else
        (StorageMode.memory, { s with storageMode := some StorageMode.memory }, [Probe.ls])

/-- `getPersistentItem`: select the tier, then read the key from that tier's
namespace map. -/
def getPersistentItem {V : Type} (env : StoreEnv) (s : StoreState V)
    (ns : StoreName) (key : List Char) : Option V × StoreState V × List Probe :=
  match ensureStorageMode env s with
  | (StorageMode.indexedDB, s1, pr) => (kvGet (s1.idbData ns) key, s1, pr)
  | (StorageMode.localStorage, s1, pr) => (kvGet (s1.lsData ns) key, s1, pr)
  | (StorageMode.memory, s1, pr) => (kvGet (s1.memData ns) key, s1, pr)

/-- `setPersistentItem`: select the tier, then write through it. -/
def setPersistentItem {V : Type} (env : StoreEnv) (s : StoreState V)
    (ns : StoreName) (key : List Char) (v : V) : StoreState V × List Probe :=
  match ensureStorageMode env s with
  | (StorageMode.indexedDB, s1, pr) =>
    ({ s1 with idbData := nsUpdate s1.idbData ns (kvSet (s1.idbData ns) key v) }, pr)
  | (StorageMode.localStorage, s1, pr) =>
    ({ s1 with lsData := nsUpdate s1.lsData ns (kvSet (s1.lsData ns) key v) }, pr)
  | (StorageMode.memory, s1, pr) =>
    ({ s1 with memData := nsUpdate s1.memData ns (kvSet (s1.memData ns) key v) }, pr)

/-- `removePersistentItem`. -/
def removePersistentItem {V : Type} (env : StoreEnv) (s : StoreState V)
    (ns : StoreName) (key : List Char) : StoreState V × List Probe :=
  match ensureStorageMode env s with
  | (StorageMode.indexedDB, s1, pr) =>
    ({ s1 with idbData := nsUpdate s1.idbData ns (kvRemove (s1.idbData ns) key) }, pr)
  | (StorageMode.localStorage, s1, pr) =>
    ({ s1 with lsData := nsUpdate s1.lsData ns (kvRemove (s1.lsData ns) key) }, pr)
  | (StorageMode.memory, s1, pr) =>
    ({ s1 with memData := nsUpdate s1.memData ns (kvRemove (s1.memData ns) key) }, pr)

/-- `SessionLog` from `activity-log.ts` (times as integers; `logoutAt` and
`durationMs` absent until the session is closed). -/
structure SessionLog where
  id : List Char
  userId : List Char
  userLogin : List Char
  userName : List Char
  loginAt : Int
  logoutAt : Option Int
  durationMs : Option Int
deriving DecidableEq

/-- JS truthiness of the optional number `existing.logoutAt`: `undefined` is
falsy, and the number 0 is falsy. -/
def truthyOpt : Option Int → Bool
  | none => false
  | some n => decide (n ≠ 0)

/-- `endSessionLog`: read the session from the 'sessions' namespace; unknown
id or an already-truthy `logoutAt` is a no-op; otherwise write it back once
with `logoutAt = now` and `durationMs = max(now − loginAt, 0)`. -/
def endSessionLog (env : StoreEnv) (s : StoreState SessionLog)
    (sessionId : List Char) (nowT : Int) : StoreState SessionLog :=
  match getPersistentItem env s StoreName.sessions sessionId with
  | (none, s1, _) => s1
  | (some ex, s1, _) =>
    if truthyOpt ex.logoutAt then s1
    else
      (setPersistentItem env s1 StoreName.sessions sessionId
        { ex with logoutAt := some nowT,
                  durationMs := some (max (nowT - ex.loginAt) 0) }).1

/-- The module-level mutable state the reconciler sees: the health flag of
`cloud-exams.ts`, the `firebaseReady`/`db` pair of `firebase.ts`, and the
"exams" namespace of the persistent store (key = userId, value = the user's
full exam array), abstracted as one keyed map. -/
structure SyncState where
  firestoreHealthy : Bool
  firebaseReady : Bool
  hasDb : Bool
  localExams : List (List Char × List Exam)
deriving DecidableEq

/-- `isFirebaseConfigured` from `firebase.ts`: `firebaseReady && Boolean(db)`. -/
def isFirebaseConfigured (s : SyncState) : Bool := s.firebaseReady && s.hasDb

/-- `disableFirebase` from `firebase.ts`: clears `firebaseReady` and `db`. -/
def disableFirebase (s : SyncState) : SyncState :=
  { s with firebaseReady := false, hasDb := false }

/-- `canUseFirestore` from `cloud-exams.ts`. -/
def canUseFirestore (s : SyncState) : Bool :=
  s.firestoreHealthy && isFirebaseConfigured s && s.hasDb

/-- `markFirestoreError`: clear the health flag and disable Firebase (the
console warning has no modelled effect). -/
def markFirestoreError (s : SyncState) : SyncState :=
  disableFirebase { s with firestoreHealthy := false }

/-- `getUserExamsCollection` returns a collection exactly when `db` is
non-null, `userId` is truthy, and `canUseFirestore()` holds; this predicate
is that condition. -/
def remoteAvailable (s : SyncState) (userId : List Char) : Bool :=
  s.hasDb && !userId.isEmpty && canUseFirestore s

/-- The initial module state: `firestoreHealthy = true`, with the
Firebase-initialization outcome and stored local exams as parameters. -/
def initSyncState (ready db : Bool) (localExams : List (List Char × List Exam)) :
    SyncState :=
  { firestoreHealthy := true, firebaseReady := ready, hasDb := db,
    localExams := localExams }

/-- `readLocalExams`: the stored per-user array (or `[]`), every exam's
`ownerId` overwritten with the userId. -/
def readLocalExams (s : SyncState) (userId : List Char) : List Exam :=
  match kvGet s.localExams userId with
  | none => []
  | some exams => exams.map (fun e => { e with ownerId := some userId })

/-- `writeLocalExams`: store the array with every `ownerId` overwritten. -/
def writeLocalExams (s : SyncState) (userId : List Char) (exams : List Exam) :
    SyncState :=
  let next := exams.map (fun e => { e with ownerId := some userId })
  { s with localExams := kvSet s.localExams userId next }

/-- A Firestore document of the user's exams collection: its id and the
`Exam`-shaped data it deserializes to (contents arbitrary, in particular the
stored `ownerId`). -/
structure RemoteDoc where
  docId : List Char
  data : Exam
deriving DecidableEq

/-- The mapping applied to every remote snapshot: spread the document data,
then overwrite `id` with the document id and `ownerId` with the subscribing
user. -/
def mapRemoteDocs (userId : List Char) (docs : List RemoteDoc) : List Exam :=
  docs.map (fun d => { d.data with id := d.docId, ownerId := some userId })

/-- Outcome of one remote call: the value, or a thrown error. -/
inductive RemoteResult (α : Type) where
  | ok (a : α)
  | error
deriving DecidableEq

/-- Where an operation's effect landed. -/
inductive Route where
  | remote
  | local
deriving DecidableEq

/-- `upsertCloudExam`: write remotely while available; on a throw mark the
error and fall through to the read-modify-write of the local per-user
array (update in place by `findIndex` on id, else append). -/
def upsertCloudExam (s : SyncState) (userId : List Char) (exam : Exam)
    (out : RemoteResult Unit) : SyncState × Route :=
  if remoteAvailable s userId then
    match out with
    | RemoteResult.ok _ => (s, Route.remote)
    | RemoteResult.error =>
      let s1 := markFirestoreError s
      let current := readLocalExams s1 userId
      let next := match findIndexJs (fun item => item.id == exam.id) current with
        | some i => current.set i { exam with ownerId := some userId }
        | none => current ++ [{ exam with ownerId := some userId }]
      (writeLocalExams s1 userId next, Route.local)
  else
    let current := readLocalExams s userId
    let next := match findIndexJs (fun item => item.id == exam.id) current with
      | some i => current.set i { exam with ownerId := some userId }
      | none => current ++ [{ exam with ownerId := some userId }]
    (writeLocalExams s userId next, Route.local)

/-- `deleteCloudExam`. -/
def deleteCloudExam (s : SyncState) (userId examId : List Char)
    (out : RemoteResult Unit) : SyncState × Route :=
  if remoteAvailable s userId then
    match out with
    | RemoteResult.ok _ => (s, Route.remote)
    | RemoteResult.error =>
      let s1 := markFirestoreError s
      (writeLocalExams s1 userId
        ((readLocalExams s1 userId).filter (fun e => !(e.id == examId))), Route.local)
  else
    (writeLocalExams s userId
      ((readLocalExams s userId).filter (fun e => !(e.id == examId))), Route.local)

/-- `fetchUserExamsSnapshot`: the returned exam list, the state after the
call, and the route taken. -/
def fetchUserExamsSnapshot (s : SyncState) (userId : List Char)
    (out : RemoteResult (List RemoteDoc)) : List Exam × SyncState × Route :=
  if remoteAvailable s userId then
    match out with
    | RemoteResult.ok docs => (mapRemoteDocs userId docs, s, Route.remote)
    | RemoteResult.error =>
      let s1 := markFirestoreError s
      (readLocalExams s1 userId, s1, Route.local)
  else
    (readLocalExams s userId, s, Route.local)

/-- `deleteAllUserExams`. -/
def deleteAllUserExams (s : SyncState) (userId : List Char)
    (out : RemoteResult Unit) : SyncState × Route :=
  if remoteAvailable s userId then
    match out with
    | RemoteResult.ok _ => (s, Route.remote)
    | RemoteResult.error =>
      let s1 := markFirestoreError s
      ({ s1 with localExams := kvRemove s1.localExams userId }, Route.local)
  else
    ({ s with localExams := kvRemove s.localExams userId }, Route.local)

/-- The immediate behaviour of `subscribeToCloudExams`: with no usable
collection it delivers one local snapshot through `onChange` and returns a
no-op unsubscribe; otherwise it installs the remote listener. -/
inductive SubInit where
  | localImmediate (exams : List Exam)
  | listening
deriving DecidableEq

def subscribeToCloudExams (s : SyncState) (userId : List Char) : SubInit × Route :=
  if remoteAvailable s userId then (SubInit.listening, Route.remote)
  else (SubInit.localImmediate (readLocalExams s userId), Route.local)

/-- A callback delivered to the subscriber: the error callback (carrying the
listener error, abstracted as a number) or a change callback with the exam
payload and the `fromCache` metadata bit. -/
inductive SubEvent where
  | errorCb (err : Nat)
  | changeCb (exams : List Exam) (fromCache : Bool)
deriving DecidableEq

/-- The `next` handler of the installed listener: map the snapshot docs and
deliver them through `onChange`. -/
def subscribeNextEvent (userId : List Char) (docs : List RemoteDoc)
    (fromCache : Bool) : SubEvent :=
  SubEvent.changeCb (mapRemoteDocs userId docs) fromCache

/-- The error handler of the installed listener (lines 97–106 of
`cloud-exams.ts`): mark the Firestore error, invoke `onError` when the
caller passed one, then deliver one local-fallback snapshot through
`onChange` with `fromCache: false`. -/
def subscribeErrorHandler (s : SyncState) (userId : List Char)
    (hasOnError : Bool) (err : Nat) : SyncState × List SubEvent :=
  let s1 := markFirestoreError s
  (s1, (if hasOnError then [SubEvent.errorCb err] else [])
        ++ [SubEvent.changeCb (readLocalExams s1 userId) false])

/-- One reconciler operation together with its remote outcome (consulted
only when the remote is actually attempted). -/
inductive SyncOp where
  | upsert (userId : List Char) (exam : Exam) (out : RemoteResult Unit)
  | del (userId examId : List Char) (out : RemoteResult Unit)
  | delAll (userId : List Char) (out : RemoteResult Unit)
  | snapshot (userId : List Char) (out : RemoteResult (List RemoteDoc))
  | subscribeOp (userId : List Char)
deriving DecidableEq

def stepOp (s : SyncState) : SyncOp → SyncState × Route
  | SyncOp.upsert userId exam out => upsertCloudExam s userId exam out
  | SyncOp.del userId examId out => deleteCloudExam s userId examId out
  | SyncOp.delAll userId out => deleteAllUserExams s userId out
  | SyncOp.snapshot userId out =>
    let r := fetchUserExamsSnapshot s userId out
    (r.2.1, r.2.2)
  | SyncOp.subscribeOp userId =>
    let r := subscribeToCloudExams s userId
    (s, r.2)

/-- Run a sequence of operations, collecting the route each one took. -/
def runOps (s : SyncState) : List SyncOp → SyncState × List Route
  | [] => (s, [])
  | op :: rest =>
    let r := stepOp s op
    let rr := runOps r.1 rest
    (rr.1, r.2 :: rr.2)

/-- `UserRole` from `types/user.ts`. -/
inductive UserRole where
  | admin
  | user
deriving DecidableEq

/-- `StoredUserRecord`: a `UserAccount` plus the password hash. -/
structure StoredUserRecord where
  id : List Char
  login : List Char
  displayName : List Char
  passwordHash : List Char
  createdAt : Int
  lastLoginAt : Option Int
  role : UserRole
deriving DecidableEq

/-- `UserAccount` from `types/user.ts`. -/
structure UserAccount where
  id : List Char
  login : List Char
  displayName : List Char
  createdAt : Int
  lastLoginAt : Option Int
  role : UserRole
deriving DecidableEq

/-- The state the account module operates on: the Firestore 'users'
collection (when `db` is non-null), and the 'users' namespace of the local
store.  In this module the guards read the *function* `isFirebaseConfigured`
without calling it (`!usersCollection || !isFirebaseConfigured`), and a
function object is always truthy, so routing depends only on `db`. -/
structure AuthState where
  hasDb : Bool
  remoteUsers : List (List Char × StoredUserRecord)
  localUsers : List (List Char × StoredUserRecord)
deriving DecidableEq

/-- The reserved login. -/
def adminLogin : List Char := "admin".data

/-- `normalizeLogin`: trim, then lowercase (ASCII model of `toLowerCase`). -/
def normalizeLogin (rawLogin : List Char) : List Char :=
  (jsTrim rawLogin).map lowerChar

/-- `UserAuthError`, by its message. -/
inductive AuthErr where
  | loginRequired
  | reservedLogin
  | displayNameRequired
  | loginInUse
  | adminManaged
deriving DecidableEq

/-- `readUserRecord`: look the normalized login up remotely when `db` is
set, else in the local store; a found record has its `id` and `login`
overwritten with the normalized login. -/
def readUserRecord (s : AuthState) (login : List Char) : Option StoredUserRecord :=
  let n := normalizeLogin login
  if s.hasDb then
    match kvGet s.remoteUsers n with
    | some data => some { data with id := n, login := n }
    | none => none
  else
    match kvGet s.localUsers n with
    | some stored => some { stored with id := n, login := n }
    | none => none

/-- `persistUserRecord`: write the record under its `login` key, remotely
when `db` is set, else locally.  (`setDoc` with `merge: true` on a record
carrying every field is a whole-record write.) -/
def persistUserRecord (s : AuthState) (record : StoredUserRecord) : AuthState :=
  if s.hasDb then { s with remoteUsers := kvSet s.remoteUsers record.login record }
  else { s with localUsers := kvSet s.localUsers record.login record }

/-- `stripSensitive`: drop the password hash. -/
def stripSensitive (record : StoredUserRecord) : UserAccount :=
  { id := record.id, login := record.login, displayName := record.displayName,
    createdAt := record.createdAt, lastLoginAt := record.lastLoginAt,
    role := record.role }

/-- `registerUser`.  The one-way hash is an injected collaborator, passed as
`hash`; `t` is the timestamp `now()` returns. -/
def registerUser (s : AuthState) (hash : List Char → List Char)
    (login password displayName : List Char) (t : Int) :
    Except AuthErr (UserAccount × AuthState) :=
  let n := normalizeLogin login
  if n.isEmpty then Except.error AuthErr.loginRequired
  else if n = adminLogin then Except.error AuthErr.reservedLogin
  else
    let dn := jsTrim displayName
    if dn.isEmpty then Except.error AuthErr.displayNameRequired
    else
      let ph := hash password
      match readUserRecord s n with
      | some _ => Except.error AuthErr.loginInUse
      | none =>
        let record : StoredUserRecord :=
          { id := n, login := n, displayName := dn, passwordHash := ph,
            createdAt := t, lastLoginAt := some t, role := UserRole.user }
        Except.ok (stripSensitive record, persistUserRecord s record)

/-- `deleteUserAccount`: `assertAdminLogin` throws on the reserved login
before anything is deleted; otherwise delete the document or local entry. -/
def deleteUserAccount (s : AuthState) (login : List Char) :
    Except AuthErr AuthState :=
  let n := normalizeLogin login
  if normalizeLogin n = adminLogin then Except.error AuthErr.adminManaged
  else if s.hasDb then Except.ok { s with remoteUsers := kvRemove s.remoteUsers n }
  else Except.ok { s with localUsers := kvRemove s.localUsers n }

/-- `ensureAdminAccount`: return the stored admin record coerced to the
admin role (persisting the correction when the stored role disagrees), or
bootstrap the account when absent. -/
def ensureAdminAccount (s : AuthState) (hash : List Char → List Char) (t : Int) :
    UserAccount × AuthState :=
  match readUserRecord s adminLogin with
  | some existing =>
    let s1 := if existing.role ≠ UserRole.admin
      then persistUserRecord s { existing with role := UserRole.admin }
      else s
    (stripSensitive { existing with role := UserRole.admin }, s1)
  | none =>
    let adminRecord : StoredUserRecord :=
      { id := adminLogin, login := adminLogin,
        displayName := "Administrator".data,
        role := UserRole.admin, createdAt := t, lastLoginAt := some t,
        passwordHash := hash ("chingon".data) }
    (stripSensitive adminRecord, persistUserRecord s adminRecord)

theorem toNat_ofNat_small {n : Nat} (h : n < 55296) : (Char.ofNat n).toNat = n := by
  have hv : n.isValidChar := Or.inl h
  rw [Char.ofNat, dif_pos hv]
  show (Char.ofNatAux n hv).toNat = n
  rw [Char.ofNatAux]
  show (UInt32.ofNat' n _).toNat = n
  rw [UInt32.ofNat']
  show (UInt32.mk (BitVec.ofNatLt n _)).toNat = n
  rfl

theorem ensureStorageMode_memo {V : Type} (env : StoreEnv) (s : StoreState V)
    (m : StorageMode) (h : s.storageMode = some m) :
    ensureStorageMode env s = (m, s, []) := by
  rw [ensureStorageMode, h]

theorem ensureStorageMode_sets {V : Type} (env : StoreEnv) (s : StoreState V) :
    ((ensureStorageMode env s).2.1).storageMode = some (ensureStorageMode env s).1 := by
  rw [ensureStorageMode]
  cases hsm : s.storageMode with
  | some m => exact hsm
  | none =>
    by_cases h1 : env.indexedDBAvailable = true
    · by_cases h2 : env.openDatabaseOk = true
      · simp [h1, h2]
      · by_cases h3 : env.localStorageOk = true
        · simp [h1, h2, h3]
        · simp [h1, h2, h3]
    · by_cases h3 : env.localStorageOk = true
      · simp [h1, h3]
      · simp [h1, h3]

theorem ensureStorageMode_data {V : Type} (env : StoreEnv) (s : StoreState V) :
    ((ensureStorageMode env s).2.1).idbData = s.idbData ∧
    ((ensureStorageMode env s).2.1).lsData = s.lsData ∧
    ((ensureStorageMode env s).2.1).memData = s.memData := by
  rw [ensureStorageMode]
  cases hsm : s.storageMode with
  | some m => exact ⟨rfl, rfl, rfl⟩
  | none =>
    by_cases h1 : env.indexedDBAvailable = true
    · by_cases h2 : env.openDatabaseOk = true
      · simp [h1, h2]
      · by_cases h3 : env.localStorageOk = true
        · simp [h1, h2, h3]
        · simp [h1, h2, h3]
    · by_cases h3 : env.localStorageOk = true
      · simp [h1, h3]
      · simp [h1, h3]

theorem getPersistentItem_state {V : Type} (env : StoreEnv) (s : StoreState V)
    (ns : StoreName) (k : List Char) :
    (getPersistentItem env s ns k).2.1 = (ensureStorageMode env s).2.1 := by
  rw [getPersistentItem]
  rcases hm : ensureStorageMode env s with ⟨mode, s1, pr⟩
  cases mode <;> rfl

theorem nsUpdate_same {V : Type} (f : StoreName → List (List Char × V))
    (ns : StoreName) (m : List (List Char × V)) : nsUpdate f ns m ns = m := by
  rw [nsUpdate, if_pos rfl]

theorem setPersistentItem_mode {V : Type} (env : StoreEnv) (s : StoreState V)
    (ns : StoreName) (k : List Char) (v : V) :
    ((setPersistentItem env s ns k v).1).storageMode
      = some (ensureStorageMode env s).1 := by
  rw [setPersistentItem]
  rcases hm : ensureStorageMode env s with ⟨mode, s1, pr⟩
  have hsets := ensureStorageMode_sets env s
  rw [hm] at hsets
  cases mode <;> exact hsets

theorem get_after_set {V : Type} (env : StoreEnv) (s : StoreState V)
    (ns : StoreName) (k : List Char) (v : V) :
    getPersistentItem env (setPersistentItem env s ns k v).1 ns k
      = (some v, (setPersistentItem env s ns k v).1, []) := by
  rcases hm : ensureStorageMode env s with ⟨mode, s1, pr⟩
  have hsets := ensureStorageMode_sets env s
  rw [hm] at hsets
  have hmode2 := setPersistentItem_mode env s ns k v
  rw [hm] at hmode2
  rw [setPersistentItem, hm] at hmode2 ⊢
  cases mode with
  | indexedDB =>
    rw [getPersistentItem, ensureStorageMode_memo env _ _ hmode2]
    simp [nsUpdate_same, kvGet_kvSet]
  | localStorage =>
    rw [getPersistentItem, ensureStorageMode_memo env _ _ hmode2]
    simp [nsUpdate_same, kvGet_kvSet]
  | memory =>
    rw [getPersistentItem, ensureStorageMode_memo env _ _ hmode2]
    simp [nsUpdate_same, kvGet_kvSet]

theorem remoteAvailable_unhealthy {s : SyncState} (uid : List Char)
    (h : s.firestoreHealthy = false) : remoteAvailable s uid = false := by
  simp [remoteAvailable, canUseFirestore, h]

theorem writeLocalExams_flags (s : SyncState) (uid : List Char) (xs : List Exam) :
    (writeLocalExams s uid xs).firestoreHealthy = s.firestoreHealthy ∧
    (writeLocalExams s uid xs).firebaseReady = s.firebaseReady ∧
    (writeLocalExams s uid xs).hasDb = s.hasDb :=
  ⟨rfl, rfl, rfl⟩

theorem stepOp_unhealthy (s : SyncState) (op : SyncOp)
    (h : s.firestoreHealthy = false) :
    (stepOp s op).1.firestoreHealthy = false ∧ (stepOp s op).2 = Route.local := by
  cases op with
  | upsert uid exam out =>
    rw [stepOp, upsertCloudExam.eq_def, if_neg (by simp [remoteAvailable_unhealthy uid h])]
    exact ⟨h, rfl⟩
  | del uid eid out =>
    rw [stepOp, deleteCloudExam.eq_def, if_neg (by simp [remoteAvailable_unhealthy uid h])]
    exact ⟨h, rfl⟩
  | delAll uid out =>
    rw [stepOp, deleteAllUserExams.eq_def, if_neg (by simp [remoteAvailable_unhealthy uid h])]
    exact ⟨h, rfl⟩
  | snapshot uid out =>
    rw [stepOp, fetchUserExamsSnapshot.eq_def, if_neg (by simp [remoteAvailable_unhealthy uid h])]
    exact ⟨h, rfl⟩
  | subscribeOp uid =>
    rw [stepOp, subscribeToCloudExams, if_neg (by simp [remoteAvailable_unhealthy uid h])]
    exact ⟨h, rfl⟩

theorem markFirestoreError_healthy (s : SyncState) :
    (markFirestoreError s).firestoreHealthy = false := rfl

theorem stepOp_monotone (s : SyncState) (op : SyncOp)
    (h : (stepOp s op).1.firestoreHealthy = true) : s.firestoreHealthy = true := by
  by_cases hs : s.firestoreHealthy = true
  · exact hs
  · have hf : s.firestoreHealthy = false := by
      cases hb : s.firestoreHealthy
      · rfl
      · exact absurd hb hs
    rw [(stepOp_unhealthy s op hf).1] at h
    cases h

theorem runOps_unhealthy (ops : List SyncOp) :
    ∀ s : SyncState, s.firestoreHealthy = false →
      (runOps s ops).1.firestoreHealthy = false ∧
        ∀ r ∈ (runOps s ops).2, r = Route.local := by
  induction ops with
  | nil =>
    intro s h
    exact ⟨h, fun r hr => absurd hr (by simp [runOps])⟩
  | cons op rest ih =>
    intro s h
    obtain ⟨h1, h2⟩ := stepOp_unhealthy s op h
    obtain ⟨h3, h4⟩ := ih (stepOp s op).1 h1
    rw [runOps]
    refine ⟨h3, ?_⟩
    intro r hr
    rcases List.mem_cons.mp hr with rfl | hr
    · exact h2
    · exact h4 r hr

/-- Every exam in the list carries the given owner. -/
def ownerOk (uid : List Char) (l : List Exam) : Bool :=
  l.all (fun e => e.ownerId == some uid)

theorem ownerOk_mapRemoteDocs (uid : List Char) (docs : List RemoteDoc) :
    ownerOk uid (mapRemoteDocs uid docs) = true := by
  rw [ownerOk, List.all_eq_true]
  intro e he
  rw [mapRemoteDocs] at he
  obtain ⟨d, _, rfl⟩ := List.mem_map.mp he
  simp

theorem ownerOk_readLocalExams (s : SyncState) (uid : List Char) :
    ownerOk uid (readLocalExams s uid) = true := by
  rw [readLocalExams]
  cases kvGet s.localExams uid with
  | none => rfl
  | some exams =>
    rw [ownerOk, List.all_eq_true]
    intro e he
    obtain ⟨x, _, rfl⟩ := List.mem_map.mp he
    simp

/-- The spec's literal example exam: title "Demo", one choice question. -/
def demoExam : Exam :=
  { id := "demo".data, title := "Demo".data,
    questions := [Question.choice ("2+2=?".data)
      [⟨"a".data, "3".data⟩, ⟨"b".data, "4".data⟩] 1],
    ownerId := none }

/-- An exam whose option labels are "b" and "c" rather than "a" and "b". -/
def examLabelsBC : Exam :=
  { id := "x".data, title := "Demo".data,
    questions := [Question.choice ("Q1".data)
      [⟨"b".data, "three".data⟩, ⟨"c".data, "four".data⟩] 0],
    ownerId := none }

/-- A copy of the shape the parser hands back: only the title and questions
survive a round trip, so re-serialization builds an exam from them. -/
def rebuildExam (t : List Char) (qs : List Question) : Exam :=
  { id := [], title := t, questions := qs, ownerId := none }

/-- Claim C1 counterexample: parsing the serialization of an exam whose
option labels are "b", "c" yields those same labels back — the labels are
*not* renormalized to "a", "b", … as the claim states. -/
theorem c1_labels_not_renormalized :
    parseExamText (serializeExam examLabelsBC)
      = ParseResult.ok ("Demo".data)
          [Question.choice ("Q1".data)
            [⟨"b".data, "three".data⟩, ⟨"c".data, "four".data⟩] 0]
    ∧ ("b".data : List Char) ≠ "a".data := by
  constructor
  · have h := parse_serialize examLabelsBC (by decide) (by decide) (by decide)
    rw [h, if_pos (by decide)]
    rfl
  · decide

/-- Claim C1 (amended): for every well-formed exam — 1 to 1000 questions,
non-empty trimmed line-terminator-free texts, and for each choice question
single lowercase-letter distinct labels with an in-range correct index —
`parseExamText (serializeExam e)` succeeds and returns exactly `e.title`
and `e.questions`: option labels are preserved verbatim (a well-formed
exam's labels are already lowercase), not renormalized to a, b, c, …; in
particular serializing the parse result reproduces `serializeExam e`. -/
theorem c1_roundtrip (e : Exam) (h : wfExam e = true) :
    parseExamText (serializeExam e) = ParseResult.ok e.title e.questions ∧
    serializeExam (rebuildExam e.title e.questions) = serializeExam e := by
  have hparts : wfExamBase e = true ∧ e.questions.length ≤ 1000 := by
    rw [wfExam, Bool.and_eq_true, decide_eq_true_eq] at h
    exact h
  have hbase := hparts.1
  rw [wfExamBase, Bool.and_eq_true, Bool.and_eq_true] at hbase
  have hne : e.questions ≠ [] := by
    intro hq
    rw [hq] at hbase
    simp at hbase
  constructor
  · rw [parse_serialize e hbase.1.1 hbase.2 hne,
      if_pos (capOkB_le e.questions 0 (by omega))]
  · rfl

theorem c1_roundtrip_witness :
    wfExam demoExam = true ∧
      (parseExamText (serializeExam demoExam)
          = ParseResult.ok demoExam.title demoExam.questions ∧
        serializeExam (rebuildExam demoExam.title demoExam.questions)
          = serializeExam demoExam) :=
  ⟨by decide, c1_roundtrip demoExam (by decide)⟩

/-- One fill-in question block. -/
def fillQ : Question := Question.fill ("q".data) ("a".data)

/-- An exam of 1001 fill-in question blocks. -/
def ex1001 : Exam :=
  { id := [], title := "T".data, questions := List.replicate 1001 fillQ,
    ownerId := none }

/-- Claim C2 counterexample: a serialized input with 1001 question blocks
(all fill-in) is *accepted* — the cap check sits only after a choice
question is appended, so it rejects nothing here. -/
theorem c2_fill_blocks_uncapped :
    ex1001.questions.length = 1001 ∧
    parseExamText (serializeExam ex1001)
      = ParseResult.ok ("T".data) (List.replicate 1001 fillQ) := by
  constructor
  · show (List.replicate 1001 fillQ).length = 1001
    exact List.length_replicate 1001 fillQ
  · have hw : ex1001.questions.all wfQuestion = true := by
      rw [List.all_eq_true]
      intro q hq
      rw [List.eq_of_mem_replicate hq]
      decide
    have hne : ex1001.questions ≠ [] := by
      intro hq
      have hlen := congrArg List.length hq
      rw [show ex1001.questions = List.replicate 1001 fillQ from rfl,
        List.length_replicate] at hlen
      cases hlen
    have h := parse_serialize ex1001 (by decide) hw hne
    rw [h, if_pos (capOkB_nochoice ex1001.questions 0 (fun q hq => by
      rw [List.eq_of_mem_replicate hq]
      rfl))]
    rfl

/-- Claim C2 (amended): on the serialization of any well-formed exam,
`parseExamText` succeeds — reproducing title and questions — exactly when
`capOkB 0` holds of the question list, i.e. when no *choice* question is
appended while the running count already reached 1000 (the check sits only
after a choice push; fill-in pushes skip it); otherwise it fails with the
fixed cap message.  In particular every well-formed input of at most 1000
blocks, and any number of fill-in blocks, is accepted, while the block that
takes a run of choice questions past 1000 is rejected. -/
theorem c2_cap_behaviour (e : Exam) (h : wfExamBase e = true) :
    (parseExamText (serializeExam e)
        = if capOkB 0 e.questions then ParseResult.ok e.title e.questions
          else ParseResult.err msgCap)
    ∧ (e.questions.length ≤ 1000 →
        parseExamText (serializeExam e) = ParseResult.ok e.title e.questions) := by
  rw [wfExamBase, Bool.and_eq_true, Bool.and_eq_true] at h
  have hne : e.questions ≠ [] := by
    intro hq
    rw [hq] at h
    simp at h
  have hmain := parse_serialize e h.1.1 h.2 hne
  refine ⟨hmain, ?_⟩
  intro hlen
  rw [hmain, if_pos (capOkB_le e.questions 0 (by omega))]

theorem c2_cap_behaviour_witness :
    wfExamBase demoExam = true ∧
      (parseExamText (serializeExam demoExam)
          = if capOkB 0 demoExam.questions
            then ParseResult.ok demoExam.title demoExam.questions
            else ParseResult.err msgCap) :=
  ⟨by decide, (c2_cap_behaviour demoExam (by decide)).1⟩

/-- Claim C3 counterexample: on the input `hello` (missing title, offending
line 1) the failure message contains no digit at all, so it does not include
the offending 1-based line number. -/
theorem c3_missing_title_no_line_number :
    parseExamText ("hello".data) = ParseResult.err msgStartTitle ∧
      msgStartTitle.all (fun c => !jsDigit c) = true := by
  constructor
  · decide
  · decide

/-- Claim C3 (amended): `parseExamText` rejects the whole input with only a
message (the error constructor carries no partial data).  The messages for a
malformed question line, a malformed option line, the two-option minimum and
a malformed fill-in answer line contain the offending 1-based line number;
the missing-title, unmatched-answer-letter and missing-answer-line messages
contain no line number (no digit at all), and the over-1000-questions
message is the fixed string `msgCap`. -/
theorem c3_message_profile :
    (parseExamText ("Title: T\nxx".data) = ParseResult.err (msgExpectedQuestion 2)
      ∧ hasSub (natToChars 2) (msgExpectedQuestion 2) = true)
  ∧ (parseExamText ("Title: T\nQuestion: Q\n1. x".data)
        = ParseResult.err (msgOptionLine 3)
      ∧ hasSub (natToChars 3) (msgOptionLine 3) = true)
  ∧ (parseExamText ("Title: T\nQuestion: Q\na. x\nAnswer: a".data)
        = ParseResult.err (msgTwoOptions 4)
      ∧ hasSub (natToChars 4) (msgTwoOptions 4) = true)
  ∧ (parseExamText ("Title: T\nQuestion: Q\nType: fill\nAnswer:".data)
        = ParseResult.err (msgFillAnswer 4)
      ∧ hasSub (natToChars 4) (msgFillAnswer 4) = true)
  ∧ (parseExamText ("hello".data) = ParseResult.err msgStartTitle
      ∧ msgStartTitle.all (fun c => !jsDigit c) = true)
  ∧ (parseExamText ("Title: T\nQuestion: Q\na. x\nb. y\nAnswer: c".data)
        = ParseResult.err (msgLetterNoMatch 'c')
      ∧ (msgLetterNoMatch 'c').all (fun c => !jsDigit c) = true)
  ∧ (parseExamText ("Title: T\nQuestion: Q\na. x\nb. y".data)
        = ParseResult.err (msgMissingAnswerChoice ("Q".data))
      ∧ (msgMissingAnswerChoice ("Q".data)).all (fun c => !jsDigit c) = true)
  ∧ (parseExamText ("Title: T\nQuestion: Q\nType: fill".data)
        = ParseResult.err (msgMissingAnswerFill ("Q".data))
      ∧ (msgMissingAnswerFill ("Q".data)).all (fun c => !jsDigit c) = true) := by
  refine ⟨⟨?_, by decide⟩, ⟨?_, by decide⟩, ⟨?_, by decide⟩, ⟨?_, by decide⟩,
    ⟨by decide, by decide⟩, ⟨?_, by decide⟩, ⟨?_, by decide⟩, ⟨?_, by decide⟩⟩
  · exact parseExamText_err_in_loop _ ("Title: T".data) [("xx".data)] 0 ("T".data) _
      (by decide) (by decide) (by decide)
      (parseLoop_concrete_err _ 1 1 ("xx".data) [] _ (by decide) (by decide))
  · exact parseExamText_err_in_loop _ ("Title: T".data)
      [("Question: Q".data), ("1. x".data)] 0 ("T".data) _
      (by decide) (by decide) (by decide)
      (parseLoop_concrete_err _ 1 1 ("Question: Q".data) [("1. x".data)] _
        (by decide) (by decide))
  · exact parseExamText_err_in_loop _ ("Title: T".data)
      [("Question: Q".data), ("a. x".data), ("Answer: a".data)] 0 ("T".data) _
      (by decide) (by decide) (by decide)
      (parseLoop_concrete_err _ 1 1 ("Question: Q".data)
        [("a. x".data), ("Answer: a".data)] _ (by decide) (by decide))
  · exact parseExamText_err_in_loop _ ("Title: T".data)
      [("Question: Q".data), ("Type: fill".data), ("Answer:".data)] 0 ("T".data) _
      (by decide) (by decide) (by decide)
      (parseLoop_concrete_err _ 1 1 ("Question: Q".data)
        [("Type: fill".data), ("Answer:".data)] _ (by decide) (by decide))
  · exact parseExamText_err_in_loop _ ("Title: T".data)
      [("Question: Q".data), ("a. x".data), ("b. y".data), ("Answer: c".data)] 0
      ("T".data) _ (by decide) (by decide) (by decide)
      (parseLoop_concrete_err _ 1 1 ("Question: Q".data)
        [("a. x".data), ("b. y".data), ("Answer: c".data)] _ (by decide) (by decide))
  · exact parseExamText_err_in_loop _ ("Title: T".data)
      [("Question: Q".data), ("a. x".data), ("b. y".data)] 0 ("T".data) _
      (by decide) (by decide) (by decide)
      (parseLoop_concrete_err _ 1 1 ("Question: Q".data)
        [("a. x".data), ("b. y".data)] _ (by decide) (by decide))
  · exact parseExamText_err_in_loop _ ("Title: T".data)
      [("Question: Q".data), ("Type: fill".data)] 0 ("T".data) _
      (by decide) (by decide) (by decide)
      (parseLoop_concrete_err _ 1 1 ("Question: Q".data)
        [("Type: fill".data)] _ (by decide) (by decide))

/-- Claim C4: the health flag starts true; the first thrown remote call of
any operation sets it false; it is never set back (any step that ends
healthy was already healthy); and from a degraded state every subsequent
operation — subscribe, upsert, delete, deleteAll, snapshot — routes to the
local store and leaves the flag false, for any sequence of operations and
any remote outcomes. -/
theorem c4_health_monotone :
    (∀ (ready db : Bool) (l : List (List Char × List Exam)),
        (initSyncState ready db l).firestoreHealthy = true)
  ∧ (∀ (s : SyncState) (uid : List Char) (exam : Exam),
        remoteAvailable s uid = true →
          (upsertCloudExam s uid exam RemoteResult.error).1.firestoreHealthy = false)
  ∧ (∀ (s : SyncState) (uid eid : List Char),
        remoteAvailable s uid = true →
          (deleteCloudExam s uid eid RemoteResult.error).1.firestoreHealthy = false)
  ∧ (∀ (s : SyncState) (uid : List Char),
        remoteAvailable s uid = true →
          (deleteAllUserExams s uid RemoteResult.error).1.firestoreHealthy = false)
  ∧ (∀ (s : SyncState) (uid : List Char),
        remoteAvailable s uid = true →
          (fetchUserExamsSnapshot s uid RemoteResult.error).2.1.firestoreHealthy = false)
  ∧ (∀ (s : SyncState) (op : SyncOp),
        (stepOp s op).1.firestoreHealthy = true → s.firestoreHealthy = true)
  ∧ (∀ (s : SyncState) (ops : List SyncOp), s.firestoreHealthy = false →
        (runOps s ops).1.firestoreHealthy = false ∧
          ∀ r ∈ (runOps s ops).2, r = Route.local) := by
  refine ⟨fun _ _ _ => rfl, ?_, ?_, ?_, ?_, stepOp_monotone,
    fun s ops h => runOps_unhealthy ops s h⟩
  · intro s uid exam h
    rw [upsertCloudExam.eq_def, if_pos (by simp [h])]
    rfl
  · intro s uid eid h
    rw [deleteCloudExam.eq_def, if_pos (by simp [h])]
    rfl
  · intro s uid h
    rw [deleteAllUserExams.eq_def, if_pos (by simp [h])]
    rfl
  · intro s uid h
    rw [fetchUserExamsSnapshot.eq_def, if_pos (by simp [h])]
    rfl

theorem c4_health_monotone_witness :
    remoteAvailable (initSyncState true true []) ("u".data) = true ∧
    (upsertCloudExam (initSyncState true true []) ("u".data) demoExam
        RemoteResult.error).1.firestoreHealthy = false ∧
    ((markFirestoreError (initSyncState true true [])).firestoreHealthy = false ∧
      (runOps (markFirestoreError (initSyncState true true []))
          [SyncOp.snapshot ("u".data) (RemoteResult.ok []),
           SyncOp.upsert ("u".data) demoExam (RemoteResult.ok ())]).1.firestoreHealthy
        = false) :=
  ⟨by decide,
   c4_health_monotone.2.1 (initSyncState true true []) ("u".data) demoExam (by decide),
   rfl,
   (c4_health_monotone.2.2.2.2.2.2 (markFirestoreError (initSyncState true true []))
      [SyncOp.snapshot ("u".data) (RemoteResult.ok []),
       SyncOp.upsert ("u".data) demoExam (RemoteResult.ok ())] rfl).1⟩

/-- Claim C5: the listener error handler installed by
`subscribeToCloudExams` (a) degrades the process-wide health state — the
flag goes false and Firebase is disabled, (b) invokes the caller's `onError`
with the error, and (c) delivers exactly one local-fallback snapshot of the
user's exams through `onChange` with `fromCache: false`, in that order. -/
theorem c5_listener_error (s : SyncState) (uid : List Char) (err : Nat) :
    (subscribeErrorHandler s uid true err).1 = markFirestoreError s
  ∧ (markFirestoreError s).firestoreHealthy = false
  ∧ (markFirestoreError s).firebaseReady = false
  ∧ (markFirestoreError s).hasDb = false
  ∧ (subscribeErrorHandler s uid true err).2
      = [SubEvent.errorCb err,
         SubEvent.changeCb (readLocalExams (markFirestoreError s) uid) false] :=
  ⟨rfl, rfl, rfl, rfl, rfl⟩

/-- Claim C6: every exam handed to a caller carries `ownerId = userId`:
the remote snapshot mapping forces it, the local read forces it, and thus
`fetchUserExamsSnapshot` (remote, thrown, or unavailable path alike), the
subscription's `next` payload, its immediate local delivery, and its
error-fallback delivery all return only exams owned by the calling user,
whatever the stored documents contained. -/
theorem c6_owner_overwrite (s : SyncState) (uid : List Char)
    (docs : List RemoteDoc) (fc hasErr : Bool)
    (out : RemoteResult (List RemoteDoc)) (err : Nat) :
    ownerOk uid (mapRemoteDocs uid docs) = true
  ∧ ownerOk uid (readLocalExams s uid) = true
  ∧ ownerOk uid (fetchUserExamsSnapshot s uid out).1 = true
  ∧ subscribeNextEvent uid docs fc = SubEvent.changeCb (mapRemoteDocs uid docs) fc
  ∧ subscribeToCloudExams s uid
      = (if remoteAvailable s uid = true then (SubInit.listening, Route.remote)
         else (SubInit.localImmediate (readLocalExams s uid), Route.local))
  ∧ (subscribeErrorHandler s uid hasErr err).2
      = (if hasErr then [SubEvent.errorCb err] else [])
          ++ [SubEvent.changeCb (readLocalExams (markFirestoreError s) uid) false] := by
  refine ⟨ownerOk_mapRemoteDocs uid docs, ownerOk_readLocalExams s uid, ?_, rfl, rfl, rfl⟩
  rw [fetchUserExamsSnapshot.eq_def]
  by_cases h : remoteAvailable s uid = true
  · rw [if_pos h]
    cases out with
    | ok ds => exact ownerOk_mapRemoteDocs uid ds
    | error => exact ownerOk_readLocalExams _ uid
  · rw [if_neg h]
    exact ownerOk_readLocalExams s uid

/-- Claim C7: when indexedDB is present but its initialization fails during
`ensureStorageMode`'s one-time probe, the store silently settles on
localStorage (or memory when the localStorage probe also fails) in that same
call — having probed indexedDB then localStorage once; a subsequent
`setPersistentItem`/`getPersistentItem` pair succeeds through the selected
tier; and the next store call reuses the memoized tier with an empty probe
list — the failed indexedDB probe is never retried. -/
theorem c7_store_fallback {V : Type} (env : StoreEnv) (s0 : StoreState V)
    (ns : StoreName) (key : List Char) (v : V)
    (h0 : s0.storageMode = none)
    (hidb : env.indexedDBAvailable = true)
    (hopen : env.openDatabaseOk = false) :
    (ensureStorageMode env s0).1
        = (if env.localStorageOk then StorageMode.localStorage else StorageMode.memory)
  ∧ (ensureStorageMode env s0).2.2 = [Probe.idb, Probe.ls]
  ∧ (getPersistentItem env (setPersistentItem env s0 ns key v).1 ns key).1 = some v
  ∧ ensureStorageMode env (setPersistentItem env s0 ns key v).1
      = ((ensureStorageMode env s0).1, (setPersistentItem env s0 ns key v).1, []) := by
  refine ⟨?_, ?_, ?_, ?_⟩
  · rw [ensureStorageMode, h0]
    by_cases h3 : env.localStorageOk = true
    · simp [hidb, hopen, h3]
    · simp [hidb, hopen, h3]
  · rw [ensureStorageMode, h0]
    by_cases h3 : env.localStorageOk = true
    · simp [hidb, hopen, h3]
    · simp [hidb, hopen, h3]
  · rw [get_after_set]
  · exact ensureStorageMode_memo env _ _ (setPersistentItem_mode env s0 ns key v)

/-- The environment of the C7 witness: indexedDB present, its open fails,
localStorage works. -/
def envIdbFails : StoreEnv :=
  { indexedDBAvailable := true, openDatabaseOk := false, localStorageOk := true }

/-- An empty store state holding `Nat` values. -/
def emptyNatStore : StoreState Nat :=
  { storageMode := none, dbPromiseCached := false,
    idbData := fun _ => [], lsData := fun _ => [], memData := fun _ => [] }

theorem c7_store_fallback_witness :
    emptyNatStore.storageMode = none ∧
    envIdbFails.indexedDBAvailable = true ∧
    envIdbFails.openDatabaseOk = false ∧
    ((ensureStorageMode envIdbFails emptyNatStore).1
        = (if envIdbFails.localStorageOk then StorageMode.localStorage
           else StorageMode.memory) ∧
      (getPersistentItem envIdbFails
          (setPersistentItem envIdbFails emptyNatStore StoreName.exams ("k".data) 7).1
          StoreName.exams ("k".data)).1 = some 7) :=
  ⟨rfl, rfl, rfl,
   (c7_store_fallback envIdbFails emptyNatStore StoreName.exams ("k".data) 7
      rfl rfl rfl).1,
   (c7_store_fallback envIdbFails emptyNatStore StoreName.exams ("k".data) 7
      rfl rfl rfl).2.2.1⟩

/-- Claim C8: closing an unknown session id is a silent no-op on the stored
data of every tier, and closing a session a second time after a first
successful close (at a positive clock value, as `Date.now()` always is)
leaves the store — in particular the stored `logoutAt` and `durationMs` —
exactly as after the first close. -/
theorem c8_endSession_idem (env : StoreEnv) (s : StoreState SessionLog)
    (sid : List Char) (t1 t2 : Int) (log : SessionLog) :
    ((getPersistentItem env s StoreName.sessions sid).1 = none →
      (endSessionLog env s sid t1).idbData = s.idbData ∧
      (endSessionLog env s sid t1).lsData = s.lsData ∧
      (endSessionLog env s sid t1).memData = s.memData)
  ∧ ((getPersistentItem env s StoreName.sessions sid).1 = some log →
      truthyOpt log.logoutAt = false → 0 < t1 →
      endSessionLog env (endSessionLog env s sid t1) sid t2
        = endSessionLog env s sid t1) := by
  constructor
  · intro h
    rcases hg : getPersistentItem env s StoreName.sessions sid with ⟨got, s1, pr⟩
    rw [hg] at h
    simp only at h
    subst h
    have hstate : s1 = (ensureStorageMode env s).2.1 := by
      have := getPersistentItem_state env s StoreName.sessions sid
      rw [hg] at this
      exact this
    have hdata := ensureStorageMode_data env s
    rw [endSessionLog, hg]
    rw [hstate]
    exact hdata
  · intro h ht hpos
    rcases hg : getPersistentItem env s StoreName.sessions sid with ⟨got, s1, pr⟩
    rw [hg] at h
    simp only at h
    subst h
    have h1 : endSessionLog env s sid t1
        = (setPersistentItem env s1 StoreName.sessions sid
            { log with logoutAt := some t1,
                       durationMs := some (max (t1 - log.loginAt) 0) }).1 := by
      rw [endSessionLog, hg]
      simp only [ht, Bool.false_eq_true, if_false]
    have hget2 := get_after_set env s1 StoreName.sessions sid
      { log with logoutAt := some t1, durationMs := some (max (t1 - log.loginAt) 0) }
    have htr : truthyOpt (some t1) = true := by
      rw [truthyOpt]
      simp only [decide_eq_true_eq]
      omega
    rw [h1, endSessionLog.eq_def, hget2]
    simp [htr]

/-- The C8 witness state: a memory-tier store holding one open session. -/
def openSession : SessionLog :=
  { id := "s1".data, userId := "u".data, userLogin := "u".data,
    userName := "U".data, loginAt := 100, logoutAt := none, durationMs := none }

def envMemoryOnly : StoreEnv :=
  { indexedDBAvailable := false, openDatabaseOk := false, localStorageOk := false }

def sessionStore : StoreState SessionLog :=
  { storageMode := none, dbPromiseCached := false,
    idbData := fun _ => [], lsData := fun _ => [],
    memData := fun ns => match ns with
      | StoreName.sessions => [("s1".data, openSession)]
      | _ => [] }

theorem c8_endSession_idem_witness :
    ((getPersistentItem envMemoryOnly sessionStore StoreName.sessions ("zz".data)).1
        = none ∧
      (endSessionLog envMemoryOnly sessionStore ("zz".data) 500).memData
        = sessionStore.memData) ∧
    ((getPersistentItem envMemoryOnly sessionStore StoreName.sessions ("s1".data)).1
        = some openSession ∧
      truthyOpt openSession.logoutAt = false ∧ (0 : Int) < 500 ∧
      endSessionLog envMemoryOnly
          (endSessionLog envMemoryOnly sessionStore ("s1".data) 500) ("s1".data) 900
        = endSessionLog envMemoryOnly sessionStore ("s1".data) 500) :=
  ⟨⟨rfl,
    ((c8_endSession_idem envMemoryOnly sessionStore ("zz".data) 500 900
        openSession).1 rfl).2.2⟩,
   ⟨rfl, rfl, by omega,
    (c8_endSession_idem envMemoryOnly sessionStore ("s1".data) 500 900
        openSession).2 rfl rfl (by omega)⟩⟩

theorem normalizeLogin_admin : normalizeLogin adminLogin = adminLogin := by decide

theorem readUserRecord_persist_admin (s : AuthState) (r : StoredUserRecord)
    (hr : r.login = adminLogin) :
    readUserRecord (persistUserRecord s r) adminLogin
      = some { r with id := adminLogin, login := adminLogin } := by
  rw [readUserRecord.eq_def, persistUserRecord.eq_def, hr]
  simp only [normalizeLogin_admin]
  by_cases hdb : s.hasDb = true
  · simp only [if_pos hdb, kvGet_kvSet]
  · simp only [if_neg hdb, kvGet_kvSet]

/-- The record `ensureAdminAccount` bootstraps when none is stored. -/
def bootstrapAdminRecord (hash : List Char → List Char) (t : Int) : StoredUserRecord :=
  { id := adminLogin, login := adminLogin,
    displayName := "Administrator".data,
    role := UserRole.admin, createdAt := t, lastLoginAt := some t,
    passwordHash := hash ("chingon".data) }

theorem ensureAdminAccount_absent (s : AuthState) (hash : List Char → List Char)
    (t : Int) (h : readUserRecord s adminLogin = none) :
    ensureAdminAccount s hash t
      = (stripSensitive (bootstrapAdminRecord hash t),
         persistUserRecord s (bootstrapAdminRecord hash t)) := by
  rw [ensureAdminAccount.eq_def, h]
  rfl

/-- Claim C9: when no record exists for the reserved login,
`ensureAdminAccount` bootstraps it — the returned account and the stored
record both carry the admin role and the reserved login; `registerUser` on
any login normalizing to the reserved one fails with the reserved-login
`UserAuthError`; `deleteUserAccount` on such a login fails with the
admin-managed `UserAuthError` and returns no new state, deleting nothing;
and when a stored record exists with any role, `ensureAdminAccount` still
returns the account with the admin role. -/
theorem c9_admin_protection (s : AuthState) (hash : List Char → List Char)
    (t : Int) (login pw dn : List Char) (ex : StoredUserRecord) :
    (readUserRecord s adminLogin = none →
      (ensureAdminAccount s hash t).1.role = UserRole.admin ∧
      (ensureAdminAccount s hash t).1.login = adminLogin ∧
      ∃ r, readUserRecord (ensureAdminAccount s hash t).2 adminLogin = some r ∧
        r.role = UserRole.admin ∧ r.login = adminLogin)
  ∧ (normalizeLogin login = adminLogin →
      registerUser s hash login pw dn t = Except.error AuthErr.reservedLogin)
  ∧ (normalizeLogin login = adminLogin →
      deleteUserAccount s login = Except.error AuthErr.adminManaged)
  ∧ (readUserRecord s adminLogin = some ex →
      (ensureAdminAccount s hash t).1.role = UserRole.admin) := by
  refine ⟨?_, ?_, ?_, ?_⟩
  · intro h
    rw [ensureAdminAccount_absent s hash t h]
    refine ⟨rfl, rfl, ?_⟩
    rw [readUserRecord_persist_admin s (bootstrapAdminRecord hash t) rfl]
    exact ⟨_, rfl, rfl, rfl⟩
  · intro h
    rw [registerUser, h]
    rw [if_neg (by decide), if_pos rfl]
  · intro h
    rw [deleteUserAccount, h, normalizeLogin_admin, if_pos rfl]
  · intro h
    rw [ensureAdminAccount.eq_def, h]
    rfl

/-- The C9/C10 witness state: local-only, no users. -/
def emptyAuth : AuthState :=
  { hasDb := false, remoteUsers := [], localUsers := [] }

/-- A throwaway stored record for instantiating C9's last conjunct. -/
def someStoredUser : StoredUserRecord :=
  { id := [], login := [], displayName := [], passwordHash := [],
    createdAt := 0, lastLoginAt := none, role := UserRole.user }

theorem c9_admin_protection_witness :
    (readUserRecord emptyAuth adminLogin = none ∧
      (ensureAdminAccount emptyAuth (fun p => p) 7).1.role = UserRole.admin) ∧
    (normalizeLogin (" Admin ".data) = adminLogin ∧
      registerUser emptyAuth (fun p => p) (" Admin ".data) ("pw".data) ("N".data) 7
        = Except.error AuthErr.reservedLogin ∧
      deleteUserAccount emptyAuth (" Admin ".data)
        = Except.error AuthErr.adminManaged) :=
  ⟨⟨by decide,
    ((c9_admin_protection emptyAuth (fun p => p) 7 (" Admin ".data) ("pw".data)
        ("N".data) someStoredUser).1 (by decide)).1⟩,
   ⟨by decide,
    (c9_admin_protection emptyAuth (fun p => p) 7 (" Admin ".data) ("pw".data)
        ("N".data) someStoredUser).2.1 (by decide),
    (c9_admin_protection emptyAuth (fun p => p) 7 (" Admin ".data) ("pw".data)
        ("N".data) someStoredUser).2.2.1 (by decide)⟩⟩

/-- Claim C10: whenever `registerUser` succeeds, the returned account has
role `user`, its `login` and `id` are the trimmed-lowercase normalization of
the submitted login, and `createdAt` equals `lastLoginAt` (both the
timestamp); the stored record under that normalized key agrees on every
field — so registration can never produce an administrator account. -/
theorem c10_register_invariants (s : AuthState) (hash : List Char → List Char)
    (login pw dn : List Char) (t : Int) (acct : UserAccount) (s2 : AuthState)
    (h : registerUser s hash login pw dn t = Except.ok (acct, s2)) :
    acct.role = UserRole.user ∧
    acct.login = normalizeLogin login ∧
    acct.id = normalizeLogin login ∧
    acct.createdAt = t ∧
    acct.lastLoginAt = some t ∧
    ∃ r : StoredUserRecord,
      (if s2.hasDb then kvGet s2.remoteUsers (normalizeLogin login)
       else kvGet s2.localUsers (normalizeLogin login)) = some r ∧
      r.role = UserRole.user ∧ r.login = normalizeLogin login ∧
      r.id = normalizeLogin login ∧ r.createdAt = t ∧ r.lastLoginAt = some t ∧
      r.displayName = jsTrim dn ∧ r.passwordHash = hash pw := by
  rw [registerUser] at h
  by_cases h1 : (normalizeLogin login).isEmpty = true
  · rw [if_pos h1] at h
    cases h
  · rw [if_neg h1] at h
    by_cases h2 : normalizeLogin login = adminLogin
    · rw [if_pos h2] at h
      cases h
    · rw [if_neg h2] at h
      by_cases h3 : (jsTrim dn).isEmpty = true
      · rw [if_pos h3] at h
        cases h
      · rw [if_neg h3] at h
        cases h4 : readUserRecord s (normalizeLogin login) with
        | some r0 =>
          rw [h4] at h
          cases h
        | none =>
          rw [h4] at h
          simp only at h
          injection h with hpair
          injection hpair with hacct hstate
          subst hacct
          subst hstate
          refine ⟨rfl, rfl, rfl, rfl, rfl, ?_⟩
          rw [persistUserRecord.eq_def]
          by_cases hdb : s.hasDb = true
          · simp only [if_pos hdb, kvGet_kvSet]
            exact ⟨_, rfl, rfl, rfl, rfl, rfl, rfl, rfl, rfl⟩
          · simp only [if_neg hdb, kvGet_kvSet]
            exact ⟨_, rfl, rfl, rfl, rfl, rfl, rfl, rfl, rfl⟩

theorem c10_register_invariants_witness :
    registerUser emptyAuth (fun p => p) ("Bob".data) ("pw".data) ("Bob N".data) 7
        = Except.ok
            ({ id := "bob".data, login := "bob".data, displayName := "Bob N".data,
               createdAt := 7, lastLoginAt := some 7, role := UserRole.user },
             { hasDb := false, remoteUsers := [],
               localUsers := [("bob".data,
                 { id := "bob".data, login := "bob".data,
                   displayName := "Bob N".data, passwordHash := "pw".data,
                   createdAt := 7, lastLoginAt := some 7,
                   role := UserRole.user })] }) ∧
    ({ id := "bob".data, login := "bob".data, displayName := "Bob N".data,
       createdAt := 7, lastLoginAt := some 7,
       role := UserRole.user } : UserAccount).role = UserRole.user :=
  ⟨rfl,
   (c10_register_invariants emptyAuth (fun p => p) ("Bob".data) ("pw".data)
      ("Bob N".data) 7 _ _ rfl).1⟩
